import Mathlib

/-!
Verification of the lockout bingo board generator (`src/index.mjs`).

The development shallowly embeds the generator's core: the `Objective`
catalog, the `Interval` arithmetic, the candidate filter
`narrow_bingo_pool`, the constraint calculator `count_bingo_constraints`,
the in-place shuffle `shuffle_array`, and the backtracking engine
`generate_board_helper` / `generate_board`.

Modelling conventions:
* JavaScript numbers are modelled as `Int` (tiers are `Nat` array indices,
  cast to `Int` inside intervals); all arithmetic the program performs on
  them stays far below 2^53, where float arithmetic is exact.
* The mutable `GeneratorContext` is threaded functionally: every function
  that mutates it returns the updated copy.
* `Math.random` is modelled by an explicit stream of draws (`rand`,
  a `List Nat`) carried in the context; `shuffle_array` consumes one draw
  per loop step (`j = draw % (i + 1)`, exactly the source's
  `Math.floor(Math.random() * (i + 1)) % (i + 1)`).
* The recursion of `generate_board_helper` is bounded by an explicit fuel
  parameter; `generate_board` supplies `size * size + 1`, and the theorem
  for the termination claim shows the result is the same for every
  sufficient fuel.
-/

namespace Bingo

/-- An item of the bingo catalog: `class Objective` of the source
(`tier`, `name`, `types`; `types_set` is membership in `types`). -/
structure Objective where
  tier : Nat
  name : String
  types : List String
deriving DecidableEq

/-- Source `Objective.includes_types`: true iff this objective contains all
given types. -/
def Objective.includes_types (o : Objective) (ts : List String) : Bool :=
  ts.all (fun t => o.types.contains t)

/-- Source `Objective.excludes_types`: true iff this objective contains none
of the given types. -/
def Objective.excludes_types (o : Objective) (ts : List String) : Bool :=
  ts.all (fun t => !(o.types.contains t))

/-- The raw catalog `data` of `objectives/example.js`: `data[tier]` lists the
objectives of that tier as (name, types) pairs. -/
def data : List (List (String × List String)) :=
  [ [],
    [("A", ["a"]), ("B", ["a", "b"]), ("C", ["c"])],
    [("D", ["c", "d"]), ("E", ["d", "e"]), ("F", ["d"])],
    [("G", ["e"]), ("H", ["e", "f"]), ("I", ["g"]), ("J", ["j"])],
    [("K", ["k"]), ("L", ["l"]), ("M", ["m"]), ("N", ["n"])],
    [("O", ["o"]), ("P", ["p"]), ("Q", ["q"]), ("R", ["r"])],
    [("S", ["s"]), ("T", ["t"]), ("U", ["u"]), ("V", ["v"])],
    [("W", ["w"]), ("X", ["x"]), ("Y", ["y"]), ("Z", ["z"])] ]

/-- Source `bingo_pool`: the catalog flattened, each objective tagged with
its tier (its index in `data`). -/
def bingo_pool : List Objective :=
  data.enum.flatMap (fun p => p.2.map (fun o => ⟨p.1, o.1, o.2⟩))

/-- Source `class Interval`: an inclusive-inclusive interval of numbers. -/
structure Interval where
  min : Int
  max : Int
deriving DecidableEq

/-- Source `Interval.contains`: `value >= min && value <= max`. -/
def Interval.contains (i : Interval) (value : Int) : Bool :=
  decide (i.min ≤ value) && decide (value ≤ i.max)

/-- Source `Interval.add` (`min += other.min; max += other.max`), purely. -/
def Interval.add (i other : Interval) : Interval :=
  ⟨i.min + other.min, i.max + other.max⟩

/-- Source `Interval.sub` (`min -= other.max; max -= other.min`), purely. -/
def Interval.sub (i other : Interval) : Interval :=
  ⟨i.min - other.max, i.max - other.min⟩

/-- Source `Interval.intersection`: pointwise max of mins, min of maxes. -/
def Interval.intersection (a b : Interval) : Interval :=
  ⟨Max.max a.min b.min, Min.min a.max b.max⟩

/-- Source `Number.MIN_SAFE_INTEGER` = -(2^53 - 1). -/
def minSafeInteger : Int := -(2 ^ 53 - 1)

/-- Source `Number.MAX_SAFE_INTEGER` = 2^53 - 1. -/
def maxSafeInteger : Int := 2 ^ 53 - 1

/-- Source `Interval.safeIntegerRange`: the range of safe integers. -/
def Interval.safeIntegerRange : Interval :=
  ⟨minSafeInteger, maxSafeInteger⟩

/-- Source `Interval.valueOf`: the interval `[value, value]`. -/
def Interval.valueOf (value : Int) : Interval :=
  ⟨value, value⟩

/-- The `TypeExclusivity` string union `"strict" | "partial" | "none"` of the
source. The `"partial"` variant is spelled `partial'`. The source's
`switch` default branch (throw on an unrecognized string) is dead code for
values of this type. -/
inductive TypeExclusivity where
  | none
  | partial'
  | strict
deriving DecidableEq

/-- Source `narrow_bingo_pool`: filters the catalog by tier interval,
used names and the tag-exclusivity policy. In the `strict` branch the
source also builds an `exclude_set` (see `strict_exclude_set`) that the
filter predicate never reads; the returned list is exactly the filter. -/
def narrow_bingo_pool (type_exclusivity : TypeExclusivity)
    (tier_interval : Interval) (exclude_types : List (List String))
    (exclude_names : Finset String) : List Objective :=
  match type_exclusivity with
  | .none =>
      bingo_pool.filter (fun obj =>
        tier_interval.contains obj.tier &&
        !(decide (obj.name ∈ exclude_names)))
  | .partial' =>
      bingo_pool.filter (fun obj =>
        tier_interval.contains obj.tier &&
        !(decide (obj.name ∈ exclude_names)) &&
        exclude_types.all (fun v => !(obj.includes_types v)))
  | .strict =>
      bingo_pool.filter (fun obj =>
        tier_interval.contains obj.tier &&
        !(decide (obj.name ∈ exclude_names)) &&
        exclude_types.all (fun v => obj.excludes_types v))

/-- The auxiliary `exclude_set` the source's `strict` branch builds with
`exclude_types.forEach(types => exclude_set.add(...types))`: JavaScript's
`Set.add` takes a single argument, so only the first tag of each tag list
is added. The set is never consulted by the filter. -/
def strict_exclude_set (exclude_types : List (List String)) : Finset String :=
  (exclude_types.filterMap List.head?).toFinset

/-- The `size × size` board, stored row-major: cell `(row, col)` is entry
`row * size + col`. A cell is `none` while unfilled (`null` in the source). -/
abbrev Board := List (Option Objective)

/-- Reads `board[row][col]`. -/
def cellAt (board : Board) (size row col : Nat) : Option Objective :=
  board.getD (row * size + col) none

/-- Source `GeneratorContext`, with the random stream `rand` added (the
source draws from the global `Math.random`). -/
structure GeneratorContext where
  board : Board
  size : Nat
  objective_difficulty : Interval
  bingo_difficulty : Interval
  type_exclusivity : TypeExclusivity
  objective_names : Finset String
  depth : Nat
  depth_record : Nat
  backtracks : Nat
  rand : List Nat
deriving DecidableEq

/-- The record `count_bingo_constraints` returns. -/
structure BingoConstraints where
  tier_interval : Interval
  exclude_types : List (List String)
deriving DecidableEq

/-- The contribution a cell subtracts from a line's target interval:
`cell === null ? objective_difficulty : Interval.valueOf(cell.tier)`. -/
def line_contribution (objective_difficulty : Interval)
    (cell : Option Objective) : Interval :=
  match cell with
  | none => objective_difficulty
  | some o => Interval.valueOf o.tier

/-- One line's remaining interval: `bingo_difficulty` with every listed
cell's contribution subtracted (the source's per-line `.sub` loop). -/
def line_interval (bingo_difficulty objective_difficulty : Interval)
    (cells : List (Option Objective)) : Interval :=
  cells.foldl (fun acc c => acc.sub (line_contribution objective_difficulty c))
    bingo_difficulty

/-- The indices `0 .. size-1` with `skip` left out (the source's
`if (i === skip) continue`). -/
def others (size skip : Nat) : List Nat :=
  (List.range size).filter (fun i => i ≠ skip)

/-- The tag lists of the occupied cells, in order (the source's
`bingo_types.push(cell.types)` under `if (cell !== null)`). -/
def occupied_types (cells : List (Option Objective)) : List (List String) :=
  cells.filterMap (fun c => c.map (fun o => o.types))

/-- The cells of row `row` other than column `col`, in loop order. -/
def row_others (b : Board) (size row col : Nat) : List (Option Objective) :=
  (others size col).map (fun i => cellAt b size row i)

/-- The cells of column `col` other than row `row`, in loop order. -/
def col_others (b : Board) (size row col : Nat) : List (Option Objective) :=
  (others size row).map (fun i => cellAt b size i col)

/-- The cells of the `\` diagonal other than `(row, row)`, in loop order. -/
def diag_others (b : Board) (size row : Nat) : List (Option Objective) :=
  (others size row).map (fun i => cellAt b size i i)

/-- The cells of the `/` diagonal other than the one in row `row`. -/
def anti_others (b : Board) (size row : Nat) : List (Option Objective) :=
  (others size row).map (fun i => cellAt b size i (size - 1 - i))

/-- Source `count_bingo_constraints`: for the target cell `(row, col)` the
admissible tier interval (the reduce of `Interval.intersection` over the
non-null per-line intervals, seeded with `objective_difficulty`) and the
tag lists of every occupied cell encountered along the row, the column,
the `\` diagonal (iff `row == col`) and the `/` diagonal
(iff `row + col == size - 1`). -/
def count_bingo_constraints (ctx : GeneratorContext) (row col : Nat) :
    BingoConstraints :=
  let rowCells := row_others ctx.board ctx.size row col
  let colCells := col_others ctx.board ctx.size row col
  let diagCells := diag_others ctx.board ctx.size row
  let antiCells := anti_others ctx.board ctx.size row
  let itv0 : Option Interval :=
    some (line_interval ctx.bingo_difficulty ctx.objective_difficulty rowCells)
  let itv1 : Option Interval :=
    some (line_interval ctx.bingo_difficulty ctx.objective_difficulty colCells)
  let itv2 : Option Interval :=
    if row = col then
      some (line_interval ctx.bingo_difficulty ctx.objective_difficulty diagCells)
    else none
  let itv3 : Option Interval :=
    if row + col = ctx.size - 1 then
      some (line_interval ctx.bingo_difficulty ctx.objective_difficulty antiCells)
    else none
  { tier_interval :=
      (([itv0, itv1, itv2, itv3].filterMap id).foldl Interval.intersection
        ctx.objective_difficulty),
    exclude_types :=
      occupied_types rowCells ++ occupied_types colCells ++
      (if row = col then occupied_types diagCells else []) ++
      (if row + col = ctx.size - 1 then occupied_types antiCells else []) }

/-- Swap of two positions of a list (no-op when either is out of range). -/
def list_swap {α : Type} (a : List α) (i j : Nat) : List α :=
  match a[i]?, a[j]? with
  | some x, some y => (a.set i y).set j x
  | _, _ => a

/-- The loop of source `shuffle_array` from index `k - 1` down to `0`,
drawing `j = draw % (i + 1)` from the stream for each index `i`
(the source's `Math.floor(Math.random() * (i + 1)) % (i + 1)`). Returns
the shuffled list and the unconsumed rest of the stream. -/
def shuffle_go {α : Type} : Nat → List α → List Nat → List α × List Nat
  | 0, a, rs => (a, rs)
  | k + 1, a, rs => shuffle_go k (list_swap a k (rs.headD 0 % (k + 1))) rs.tail

/-- Source `shuffle_array`, with the random stream made explicit. -/
def shuffle_array {α : Type} (a : List α) (rs : List Nat) :
    List α × List Nat :=
  shuffle_go a.length a rs

/-- Source `BACKTRACK_LIMIT`. -/
def BACKTRACK_LIMIT : Nat := 100

/-- The `for (const objective of pool)` loop of `generate_board_helper`:
place the candidate (write the cell, add its name), recurse through
`helper`, propagate success, and on failure count the backtrack, remove
the name, and either break out (depth above 5 and the backtrack limit
reached), or continue — resetting `backtracks` to 0 at depth 5 or below. -/
def generate_board_loop (helper : GeneratorContext → Bool × GeneratorContext)
    (size row col : Nat) :
    List Objective → GeneratorContext → Bool × GeneratorContext
  | [], ctx => (false, ctx)
  | objective :: rest, ctx =>
      let placed := { ctx with
        board := ctx.board.set (row * size + col) (some objective),
        objective_names := insert objective.name ctx.objective_names }
      let r := helper placed
      if r.1 then r
      else
        let bt : GeneratorContext := { r.2 with
          backtracks := r.2.backtracks + 1,
          objective_names := r.2.objective_names.erase objective.name }
        if 5 < bt.depth then
          if BACKTRACK_LIMIT ≤ bt.backtracks then (false, bt)
          else generate_board_loop helper size row col rest bt
        else generate_board_loop helper size row col rest { bt with backtracks := 0 }

/-- Source `generate_board_helper`, with an explicit fuel bounding the
recursion depth (out of fuel reads as failure; `generate_board` passes
enough fuel for the bound never to bite, see the fuel-independence
theorem). Success propagates the context as is; failure restores
`depth` and clears the cell before returning, as the source does after
its candidate loop. -/
def generate_board_helper : Nat → GeneratorContext → Bool × GeneratorContext
  | 0, ctx => (false, ctx)
  | fuel + 1, ctx =>
      let size := ctx.size
      let ctx := if ctx.depth_record < ctx.depth then
        { ctx with depth_record := ctx.depth } else ctx
      if size * size ≤ ctx.depth then (true, ctx)
      else
        let row := ctx.depth / size
        let col := ctx.depth % size
        let constraints := count_bingo_constraints ctx row col
        let pool := narrow_bingo_pool ctx.type_exclusivity constraints.tier_interval
          constraints.exclude_types ctx.objective_names
        if pool.isEmpty then (false, ctx)
        else
          let s := shuffle_array pool ctx.rand
          let down := { ctx with rand := s.2, depth := ctx.depth + 1 }
          let r := generate_board_loop (generate_board_helper fuel) size row col
            s.1 down
          if r.1 then r
          else
            let restored : GeneratorContext := { r.2 with
              depth := r.2.depth - 1,
              board := r.2.board.set (row * size + col) none }
            (false, restored)

/-- The message of the `Error` value `generate_board` returns on failure. -/
def board_not_found_message : String :=
  "Board not found. A board may be possible but simply not found by the generator."

/-- Source `generate_board`: build the fresh all-null board and context,
run the helper, and return the board on success or the `Error` value on
failure. A `none` `objective_difficulty` models the source's `null`
argument, replaced by `Interval.safeIntegerRange()` via `??`. -/
def generate_board (size : Nat) (objective_difficulty : Option Interval)
    (bingo_difficulty : Interval) (type_exclusivity : TypeExclusivity)
    (rand : List Nat) : Except String Board :=
  let board : Board := List.replicate (size * size) none
  let ctx : GeneratorContext := {
    board := board,
    size := size,
    objective_difficulty := objective_difficulty.getD Interval.safeIntegerRange,
    bingo_difficulty := bingo_difficulty,
    type_exclusivity := type_exclusivity,
    objective_names := ∅,
    depth := 0,
    depth_record := 0,
    backtracks := 0,
    rand := rand }
  let r := generate_board_helper (size * size + 1) ctx
  if r.1 then Except.ok r.2.board else Except.error board_not_found_message

/-! ### Spec-side definitions

These render sentences of the specification, for comparison with the
definitions embedded from the source. -/

/-- The number of still-empty cells in a list of cells. -/
def empty_count (cells : List (Option Objective)) : Nat :=
  (cells.filter (fun c => c.isNone)).length

/-- The sum of the tiers of the occupied cells in a list of cells. -/
def occupied_sum (cells : List (Option Objective)) : Int :=
  (cells.filterMap (fun c => c.map (fun o => (o.tier : Int)))).sum

/-- Spec §4.3: the remaining interval of one line — `bingo_difficulty`
minus, for every other cell of the line, the exact interval of its tier if
occupied or the full `objective_difficulty` if empty. Subtracting those
contributions in interval arithmetic gives this closed form. -/
def spec_line_interval (bingo_difficulty objective_difficulty : Interval)
    (cells : List (Option Objective)) : Interval :=
  ⟨bingo_difficulty.min - occupied_sum cells -
      (empty_count cells : Int) * objective_difficulty.max,
   bingo_difficulty.max - occupied_sum cells -
      (empty_count cells : Int) * objective_difficulty.min⟩

/-- Spec §4.3: the final admissible interval — the intersection of
`objective_difficulty` with every applicable per-line interval (row and
column always, `\` diagonal iff `row = col`, `/` diagonal iff
`row + col = size - 1`). -/
def spec_tier_interval (ctx : GeneratorContext) (row col : Nat) : Interval :=
  (([some (spec_line_interval ctx.bingo_difficulty ctx.objective_difficulty
        (row_others ctx.board ctx.size row col)),
     some (spec_line_interval ctx.bingo_difficulty ctx.objective_difficulty
        (col_others ctx.board ctx.size row col)),
     if row = col then
       some (spec_line_interval ctx.bingo_difficulty ctx.objective_difficulty
          (diag_others ctx.board ctx.size row))
     else none,
     if row + col = ctx.size - 1 then
       some (spec_line_interval ctx.bingo_difficulty ctx.objective_difficulty
          (anti_others ctx.board ctx.size row))
     else none].filterMap id).foldl Interval.intersection
    ctx.objective_difficulty)

/-- Spec §3: cell `(r, c)` shares a line with cell `(row, col)`: same row,
same column, both on the `\` diagonal, or both on the `/` diagonal. -/
def shares_line (size row col r c : Nat) : Prop :=
  r = row ∨ c = col ∨ (row = col ∧ r = c) ∨
    (row + col = size - 1 ∧ r + c = size - 1)

/-- The tag list of the cell at `(r, c)` (empty for an empty cell). -/
def types_at (board : Board) (size r c : Nat) : List String :=
  ((cellAt board size r c).map (fun o => o.types)).getD []

/-- The names of the occupied cells of a board, in board order. -/
def nameList (b : Board) : List String :=
  (b.filterMap id).map (fun o => o.name)

/-- The cells of row `r`. -/
def row_cells (b : Board) (size r : Nat) : List (Option Objective) :=
  (List.range size).map (fun i => cellAt b size r i)

/-- The cells of column `c`. -/
def col_cells (b : Board) (size c : Nat) : List (Option Objective) :=
  (List.range size).map (fun i => cellAt b size i c)

/-- The cells of the `\` diagonal. -/
def diag_cells (b : Board) (size : Nat) : List (Option Objective) :=
  (List.range size).map (fun i => cellAt b size i i)

/-- The cells of the `/` diagonal. -/
def anti_cells (b : Board) (size : Nat) : List (Option Objective) :=
  (List.range size).map (fun i => cellAt b size i (size - 1 - i))

/-- All cells of a line are occupied. -/
def line_full (cells : List (Option Objective)) : Prop :=
  ∀ c ∈ cells, c.isSome = true

/-- Spec §8 validity of a (possibly partial) board: every occupied cell's
tier lies in `objective_difficulty`, and every fully occupied line's tier
sum lies in `bingo_difficulty`. -/
def BoardValid (b : Board) (size : Nat)
    (objective_difficulty bingo_difficulty : Interval) : Prop :=
  (∀ o : Objective, some o ∈ b → objective_difficulty.contains o.tier = true) ∧
  (∀ r, r < size → line_full (row_cells b size r) →
    bingo_difficulty.contains (occupied_sum (row_cells b size r)) = true) ∧
  (∀ c, c < size → line_full (col_cells b size c) →
    bingo_difficulty.contains (occupied_sum (col_cells b size c)) = true) ∧
  (0 < size → line_full (diag_cells b size) →
    bingo_difficulty.contains (occupied_sum (diag_cells b size)) = true) ∧
  (0 < size → line_full (anti_cells b size) →
    bingo_difficulty.contains (occupied_sum (anti_cells b size)) = true)

/-- Spec §3 `SearchState` invariant together with the row-major fill
discipline: the board has `size * size` cells, the cells at index
`depth` and beyond are empty, those before are occupied, `objective_names`
is exactly the set of names on the board, those names are pairwise
distinct, and the partial board is valid. -/
def SearchInv (ctx : GeneratorContext) : Prop :=
  ctx.board.length = ctx.size * ctx.size ∧
  (∀ k, ctx.depth ≤ k → ctx.board.getD k none = none) ∧
  (∀ k, k < ctx.depth → (ctx.board.getD k none).isSome = true) ∧
  ctx.objective_names = (nameList ctx.board).toFinset ∧
  (nameList ctx.board).Nodup ∧
  BoardValid ctx.board ctx.size ctx.objective_difficulty ctx.bingo_difficulty

/-! ### Concrete inputs used to instantiate the theorems -/

/-- Catalog item `A` of tier 1. -/
def demo_objective : Objective := ⟨1, "A", ["a"]⟩

/-- The board a 2×2 run with tiers in `[1, 3]`, line sums in `[2, 6]`, no
tag policy and an all-zero random stream produces. -/
def demo_board : Board :=
  [some ⟨1, "B", ["a", "b"]⟩, some ⟨1, "C", ["c"]⟩,
   some ⟨2, "D", ["c", "d"]⟩, some ⟨2, "E", ["d", "e"]⟩]

/-- A 3×3 context with one occupied cell. -/
def demo_ctx2 : GeneratorContext :=
  GeneratorContext.mk ((List.replicate 9 none).set 0 (some demo_objective))
    3 ⟨1, 3⟩ ⟨5, 7⟩ .strict {demo_objective.name} 1 1 0 []

/-- A 1×1 context whose line-sum range `[100, 200]` is unsatisfiable. -/
def demo_ctx6 : GeneratorContext :=
  GeneratorContext.mk (List.replicate 1 none) 1 ⟨1, 3⟩ ⟨100, 200⟩ .none ∅
    0 0 0 []

/-- A deep 3×3 context with 99 backtracks already counted. -/
def demo_ctx7 : GeneratorContext :=
  GeneratorContext.mk (List.replicate 9 none) 3 ⟨1, 3⟩ ⟨5, 7⟩ .none ∅ 8 8 99 []

/-- `demo_ctx7` with `demo_objective` placed at cell `(2, 1)`. -/
def demo_placed7 : GeneratorContext :=
  { demo_ctx7 with
    board := demo_ctx7.board.set (2 * 3 + 1) (some demo_objective),
    objective_names := insert demo_objective.name demo_ctx7.objective_names }

/-- A fresh 3×3 context. -/
def demo_ctx9 : GeneratorContext :=
  GeneratorContext.mk (List.replicate 9 none) 3 ⟨1, 3⟩ ⟨5, 7⟩ .strict ∅
    0 0 0 []

/-- The tier contribution of a cell to its line's sum (0 for empty). -/
def tier_value : Option Objective → Int
  | none => 0
  | some o => o.tier

/-- The parameters the search never changes: the size, the two difficulty
intervals and the exclusivity mode, bundled for frame theorems. -/
def consts (c : GeneratorContext) :
    Nat × Interval × Interval × TypeExclusivity :=
  (c.size, c.objective_difficulty, c.bingo_difficulty, c.type_exclusivity)

/-! ### Basic lemmas -/

theorem contains_mem (l : List String) (t : String) :
    l.contains t = true ↔ t ∈ l := by
  simp [List.contains, List.elem_iff]

theorem interval_contains_iff (i : Interval) (t : Int) :
    i.contains t = true ↔ i.min ≤ t ∧ t ≤ i.max := by
  simp [Interval.contains]

theorem intersection_contains (a b : Interval) (t : Int) :
    (Interval.intersection a b).contains t = true ↔
      a.contains t = true ∧ b.contains t = true := by
  simp only [Interval.intersection, Interval.contains, Bool.and_eq_true,
    decide_eq_true_eq]
  omega

theorem foldl_intersection_contains (l : List Interval) (init : Interval)
    (t : Int) :
    ((l.foldl Interval.intersection init).contains t = true) ↔
      (init.contains t = true ∧ ∀ itv ∈ l, itv.contains t = true) := by
  induction l generalizing init with
  | nil => simp
  | cons hd tl ih =>
    rw [List.foldl_cons, ih]
    simp only [intersection_contains, List.mem_cons]
    constructor
    · rintro ⟨⟨h1, h2⟩, h3⟩
      refine ⟨h1, ?_⟩
      intro itv h
      rcases h with h | h
      · subst h; exact h2
      · exact h3 itv h
    · rintro ⟨h1, h2⟩
      exact ⟨⟨h1, h2 hd (Or.inl rfl)⟩, fun itv h => h2 itv (Or.inr h)⟩

theorem line_interval_eq_spec (bd od : Interval)
    (cells : List (Option Objective)) :
    line_interval bd od cells = spec_line_interval bd od cells := by
  induction cells generalizing bd with
  | nil =>
    simp [line_interval, spec_line_interval, occupied_sum, empty_count]
  | cons c cs ih =>
    have h1 : line_interval bd od (c :: cs) =
        line_interval (bd.sub (line_contribution od c)) od cs := rfl
    rw [h1, ih]
    cases c with
    | none =>
      simp only [spec_line_interval, occupied_sum, empty_count, Interval.sub,
        line_contribution, List.filterMap_cons, List.filter_cons,
        Option.isNone_none, Option.map_none', List.length_cons, if_pos]
      refine congrArg₂ Interval.mk ?_ ?_ <;> push_cast <;> ring
    | some o =>
      simp only [spec_line_interval, occupied_sum, empty_count, Interval.sub,
        line_contribution, Interval.valueOf, List.filterMap_cons,
        List.filter_cons, Option.isNone_some, Option.map_some', List.sum_cons,
        if_neg, Bool.false_eq_true, not_false_iff]
      refine congrArg₂ Interval.mk ?_ ?_ <;> ring

/-! ### Claim theorems: interval arithmetic, candidate filter, null default -/

/-- C8: for all intervals, `add` yields `[a.min + b.min, a.max + b.max]`,
`sub` (subtracting a known contribution) yields
`[a.min - b.max, a.max - b.min]`, `intersection` takes the max of the mins
and the min of the maxes, and that intersection is empty (min above max)
iff no value is contained in both inputs. -/
theorem C8_interval_arithmetic (a b : Interval) :
    a.add b = ⟨a.min + b.min, a.max + b.max⟩ ∧
    a.sub b = ⟨a.min - b.max, a.max - b.min⟩ ∧
    Interval.intersection a b = ⟨Max.max a.min b.min, Min.min a.max b.max⟩ ∧
    ((Interval.intersection a b).max < (Interval.intersection a b).min ↔
      ¬ ∃ v : Int, a.contains v = true ∧ b.contains v = true) := by
  refine ⟨rfl, rfl, rfl, ?_⟩
  constructor
  · rintro h ⟨v, hva, hvb⟩
    rw [interval_contains_iff] at hva hvb
    simp only [Interval.intersection] at h
    omega
  · intro h
    by_contra hlt
    push_neg at hlt
    simp only [Interval.intersection] at hlt
    refine h ⟨Max.max a.min b.min, ?_, ?_⟩ <;> rw [interval_contains_iff] <;> omega

/-- C3: `narrow_bingo_pool` returns exactly the catalog items whose tier
the interval contains, whose name is not among the used names, and which
satisfy the tag policy — under `none` no tag condition, under `partial`
the item's tag set is not a superset of any forbidden tag list, under
`strict` the item shares no tag with any forbidden tag list. The right
hand side never mentions the `strict` branch's auxiliary
`strict_exclude_set`, so that set has no effect on the result. -/
theorem C3_narrow_bingo_pool_filter (te : TypeExclusivity)
    (tier_interval : Interval) (exclude_types : List (List String))
    (exclude_names : Finset String) (o : Objective) :
    o ∈ narrow_bingo_pool te tier_interval exclude_types exclude_names ↔
      (o ∈ bingo_pool ∧ tier_interval.contains o.tier = true ∧
        o.name ∉ exclude_names ∧
        (te = .partial' → ∀ T ∈ exclude_types, ¬ ∀ t ∈ T, t ∈ o.types) ∧
        (te = .strict → ∀ T ∈ exclude_types, ∀ t ∈ T, t ∉ o.types)) := by
  cases te with
  | none =>
    simp [narrow_bingo_pool, List.mem_filter]
  | partial' =>
    simp [narrow_bingo_pool, List.mem_filter, Objective.includes_types,
      List.all_eq_true, contains_mem]
    tauto
  | strict =>
    simp [narrow_bingo_pool, List.mem_filter, Objective.excludes_types,
      List.all_eq_true, contains_mem]
    tauto

/-- C10: passing `null` (here `none`) as the per-cell tier range behaves
exactly as passing the safe-integer interval, and that interval contains
the tier of every catalog item, so it imposes no per-cell restriction. -/
theorem C10_null_difficulty_default (size : Nat) (bingo_difficulty : Interval)
    (te : TypeExclusivity) (rand : List Nat) :
    generate_board size (Option.none) bingo_difficulty te rand =
      generate_board size (some Interval.safeIntegerRange) bingo_difficulty
        te rand ∧
    ∀ o ∈ bingo_pool, Interval.safeIntegerRange.contains o.tier = true := by
  exact ⟨rfl, by decide⟩

/-! ### List toolkit -/

theorem getD_set_self {α : Type} (l : List α) (k : Nat) (v d : α)
    (h : k < l.length) : (l.set k v).getD k d = v := by
  simp [List.getD_eq_getElem?_getD, List.getElem?_set_self h]

theorem getD_set_ne {α : Type} (l : List α) (j k : Nat) (v d : α)
    (h : j ≠ k) : (l.set j v).getD k d = l.getD k d := by
  simp [List.getD_eq_getElem?_getD, List.getElem?_set_ne h]

theorem set_eq_self_of_getD {α : Type} (l : List α) (k : Nat) (d : α)
    (h : l.getD k d = d) : l.set k d = l := by
  induction l generalizing k with
  | nil => rfl
  | cons x xs ih =>
    cases k with
    | zero =>
      rw [List.getD_cons_zero] at h
      simp [List.set, h]
    | succ n =>
      rw [List.getD_cons_succ] at h
      simp [List.set, ih n h]

theorem cell_index_inj {size row col r c : Nat} (hcol : col < size)
    (hc : c < size) (h : row * size + col = r * size + c) :
    row = r ∧ col = c := by
  have hpos : 0 < size := lt_of_le_of_lt (Nat.zero_le col) hcol
  have key : ∀ a b : Nat, b < size → (a * size + b) / size = a := by
    intro a b hb
    rw [Nat.add_comm, Nat.add_mul_div_right _ _ hpos, Nat.div_eq_of_lt hb,
      Nat.zero_add]
  have keym : ∀ a b : Nat, b < size → (a * size + b) % size = b := by
    intro a b hb
    rw [Nat.add_comm, Nat.add_mul_mod_self_right, Nat.mod_eq_of_lt hb]
  have d1 := key row col hcol
  have d2 := key r c hc
  have m1 := keym row col hcol
  have m2 := keym r c hc
  rw [h] at d1 m1
  exact ⟨by omega, by omega⟩

theorem cellAt_set_ne (b : Board) (size row col r c : Nat)
    (v : Option Objective) (hcol : col < size) (hc : c < size)
    (hne : ¬(r = row ∧ c = col)) :
    cellAt (b.set (row * size + col) v) size r c = cellAt b size r c := by
  refine getD_set_ne _ _ _ _ _ ?_
  intro h
  rcases cell_index_inj hcol hc h with ⟨h1, h2⟩
  exact hne ⟨h1.symm, h2.symm⟩

theorem cellAt_set_self (b : Board) (size row col : Nat) (v : Option Objective)
    (h : row * size + col < b.length) :
    cellAt (b.set (row * size + col) v) size row col = v :=
  getD_set_self _ _ _ _ h

theorem index_lt_of_lt (size row col : Nat) (hrow : row < size)
    (hcol : col < size) : row * size + col < size * size := by
  have h1 : row * size + col < (row + 1) * size := by
    simp [Nat.add_mul]
    omega
  have h2 : (row + 1) * size ≤ size * size :=
    Nat.mul_le_mul_right _ (by omega)
  omega

theorem mem_others {size skip i : Nat} :
    i ∈ others size skip ↔ i < size ∧ i ≠ skip := by
  simp [others, List.mem_filter, List.mem_range]

theorem getD_replicate_none (n k : Nat) :
    (List.replicate n (none : Option Objective)).getD k none = none := by
  induction n generalizing k with
  | zero => cases k <;> rfl
  | succ m ih =>
    cases k with
    | zero => rfl
    | succ j => simp [List.replicate, ih j]

theorem nameList_none_cons (cs : Board) :
    nameList ((none : Option Objective) :: cs) = nameList cs := by
  simp [nameList]

theorem nameList_some_cons (o : Objective) (cs : Board) :
    nameList (some o :: cs) = o.name :: nameList cs := by
  simp [nameList]

theorem nameList_set_some_perm (b : Board) (k : Nat) (o : Objective)
    (hk : k < b.length) (hempty : b.getD k none = none) :
    (nameList (b.set k (some o))).Perm (o.name :: nameList b) := by
  induction b generalizing k with
  | nil => simp at hk
  | cons c cs ih =>
    cases k with
    | zero =>
      rw [List.getD_cons_zero] at hempty
      subst hempty
      simp [nameList_none_cons, nameList_some_cons, List.set]
    | succ n =>
      rw [List.getD_cons_succ] at hempty
      have hlen : n < cs.length := by simpa using hk
      have hp := ih n hlen hempty
      show (nameList (c :: cs.set n (some o))).Perm (o.name :: nameList (c :: cs))
      cases c with
      | none =>
        rw [nameList_none_cons, nameList_none_cons]
        exact hp
      | some o2 =>
        rw [nameList_some_cons, nameList_some_cons]
        exact (hp.cons o2.name).trans (List.Perm.swap o.name o2.name _)

theorem nameList_unset_perm (b : Board) (k : Nat) (o : Objective)
    (hk : k < b.length) (hocc : b.getD k none = some o) :
    (nameList b).Perm (o.name :: nameList (b.set k none)) := by
  induction b generalizing k with
  | nil => simp at hk
  | cons c cs ih =>
    cases k with
    | zero =>
      rw [List.getD_cons_zero] at hocc
      subst hocc
      simp [nameList_none_cons, nameList_some_cons, List.set]
    | succ n =>
      rw [List.getD_cons_succ] at hocc
      have hlen : n < cs.length := by simpa using hk
      have hp := ih n hlen hocc
      show (nameList (c :: cs)).Perm (o.name :: nameList (c :: cs.set n none))
      cases c with
      | none =>
        rw [nameList_none_cons, nameList_none_cons]
        exact hp
      | some o2 =>
        rw [nameList_some_cons, nameList_some_cons]
        exact (hp.cons o2.name).trans (List.Perm.swap o.name o2.name _)

theorem occupied_sum_eq (cells : List (Option Objective)) :
    occupied_sum cells = (cells.map tier_value).sum := by
  induction cells with
  | nil => rfl
  | cons c cs ih =>
    cases c <;>
      simp [occupied_sum, tier_value, List.filterMap_cons, List.sum_cons] <;>
      simpa [occupied_sum] using ih

theorem others_self (m : Nat) : others m m = List.range m := by
  refine List.filter_eq_self.mpr ?_
  intro a ha
  simp only [decide_eq_true_eq]
  exact Nat.ne_of_lt (List.mem_range.mp ha)

theorem others_succ (m p : Nat) :
    others (m + 1) p =
      if p = m then others m p else others m p ++ [m] := by
  simp only [others, List.range_succ, List.filter_append]
  by_cases hpm : p = m
  · subst hpm
    simp
  · rw [if_neg hpm]
    congr 1
    simp [List.filter_cons, Ne.symm hpm]

theorem sum_map_range_split (n p : Nat) (f : Nat → Int) (hp : p < n) :
    ((List.range n).map f).sum = ((others n p).map f).sum + f p := by
  induction n with
  | zero => omega
  | succ m ih =>
    rw [others_succ, List.range_succ]
    by_cases hpm : p = m
    · subst hpm
      rw [if_pos rfl, others_self]
      simp
    · rw [if_neg hpm]
      have hp' : p < m := by omega
      simp only [List.map_append, List.sum_append, ih hp', List.map_cons,
        List.map_nil, List.sum_cons, List.sum_nil]
      ring

theorem mem_list_swap {α : Type} {a : List α} {i j : Nat} {x : α}
    (h : x ∈ list_swap a i j) : x ∈ a := by
  simp only [list_swap] at h
  split at h
  next y z hi hj =>
    rcases List.mem_or_eq_of_mem_set h with h' | h'
    · rcases List.mem_or_eq_of_mem_set h' with h'' | h''
      · exact h''
      · subst h''
        exact List.getElem?_mem hj
    · subst h'
      exact List.getElem?_mem hi
  next => exact h

theorem mem_shuffle_go {α : Type} {x : α} :
    ∀ (k : Nat) (a : List α) (rs : List Nat),
      x ∈ (shuffle_go k a rs).1 → x ∈ a := by
  intro k
  induction k with
  | zero => intro a rs h; exact h
  | succ m ih =>
    intro a rs h
    exact mem_list_swap (ih _ _ h)

theorem mem_shuffle_array {α : Type} {a : List α} {rs : List Nat} {x : α}
    (h : x ∈ (shuffle_array a rs).1) : x ∈ a :=
  mem_shuffle_go _ _ _ h

/-! ### The constraint calculator against the specification (C2) -/

theorem mem_ite_nil {α : Type} (c : Prop) [Decidable c] (l : List α) (x : α) :
    (x ∈ if c then l else []) ↔ c ∧ x ∈ l := by
  by_cases h : c <;> simp [h]

theorem mem_filter_map_pair (l : List Nat) (q : Nat → Bool)
    (f : Nat → Nat × Nat) (p : Nat × Nat) :
    (p ∈ (l.filter q).map f) ↔ ∃ i ∈ l, q i = true ∧ f i = p := by
  rw [List.mem_map]
  constructor
  · rintro ⟨i, hi, hfi⟩
    rw [List.mem_filter] at hi
    exact ⟨i, hi.1, hi.2, hfi⟩
  · rintro ⟨i, hil, hq, hfi⟩
    exact ⟨i, List.mem_filter.mpr ⟨hil, hq⟩, hfi⟩

theorem occupied_types_eq (l : List Nat) (g : Nat → Option Objective) :
    occupied_types (l.map g) =
      (l.filter (fun i => (g i).isSome)).map
        (fun i => ((g i).map (fun o => o.types)).getD []) := by
  induction l with
  | nil => rfl
  | cons i is ih =>
    cases hg : g i <;>
      simp [occupied_types, List.filterMap_cons, List.filter_cons, hg] <;>
      simpa [occupied_types] using ih

theorem nodup_filter_map_pair (l : List Nat) (q : Nat → Bool)
    (f : Nat → Nat × Nat) (hl : l.Nodup)
    (hf : ∀ a b, f a = f b → a = b) : ((l.filter q).map f).Nodup :=
  (hl.filter q).map (fun {a b} h => hf a b h)

theorem mem_rowP (b : Board) (size row col r c : Nat) :
    ((r, c) ∈ ((others size col).filter
      (fun i => (cellAt b size row i).isSome)).map (fun i => (row, i))) ↔
    (r = row ∧ c < size ∧ c ≠ col ∧ (cellAt b size r c).isSome = true) := by
  rw [mem_filter_map_pair]
  constructor
  · rintro ⟨i, hil, hq, hfi⟩
    have h1 : row = r := congrArg Prod.fst hfi
    have h2 : i = c := congrArg Prod.snd hfi
    subst h1
    subst h2
    exact ⟨rfl, (mem_others.mp hil).1, (mem_others.mp hil).2, hq⟩
  · rintro ⟨h1, h2, h3, h4⟩
    subst h1
    exact ⟨c, mem_others.mpr ⟨h2, h3⟩, h4, rfl⟩

theorem mem_colP (b : Board) (size row col r c : Nat) :
    ((r, c) ∈ ((others size row).filter
      (fun i => (cellAt b size i col).isSome)).map (fun i => (i, col))) ↔
    (c = col ∧ r < size ∧ r ≠ row ∧ (cellAt b size r c).isSome = true) := by
  rw [mem_filter_map_pair]
  constructor
  · rintro ⟨i, hil, hq, hfi⟩
    have h1 : i = r := congrArg Prod.fst hfi
    have h2 : col = c := congrArg Prod.snd hfi
    subst h1
    subst h2
    exact ⟨rfl, (mem_others.mp hil).1, (mem_others.mp hil).2, hq⟩
  · rintro ⟨h1, h2, h3, h4⟩
    subst h1
    exact ⟨r, mem_others.mpr ⟨h2, h3⟩, h4, rfl⟩

theorem mem_diagP (b : Board) (size row r c : Nat) :
    ((r, c) ∈ ((others size row).filter
      (fun i => (cellAt b size i i).isSome)).map (fun i => (i, i))) ↔
    (r = c ∧ r < size ∧ r ≠ row ∧ (cellAt b size r c).isSome = true) := by
  rw [mem_filter_map_pair]
  constructor
  · rintro ⟨i, hil, hq, hfi⟩
    have h1 : i = r := congrArg Prod.fst hfi
    have h2 : i = c := congrArg Prod.snd hfi
    subst h1
    subst h2
    exact ⟨rfl, (mem_others.mp hil).1, (mem_others.mp hil).2, hq⟩
  · rintro ⟨h1, h2, h3, h4⟩
    subst h1
    exact ⟨r, mem_others.mpr ⟨h2, h3⟩, h4, rfl⟩

theorem mem_antiP (b : Board) (size row r c : Nat) :
    ((r, c) ∈ ((others size row).filter
      (fun i => (cellAt b size i (size - 1 - i)).isSome)).map
        (fun i => (i, size - 1 - i))) ↔
    (c = size - 1 - r ∧ r < size ∧ r ≠ row ∧
      (cellAt b size r c).isSome = true) := by
  rw [mem_filter_map_pair]
  constructor
  · rintro ⟨i, hil, hq, hfi⟩
    have h1 : i = r := congrArg Prod.fst hfi
    have h2 : size - 1 - i = c := congrArg Prod.snd hfi
    subst h1
    subst h2
    exact ⟨rfl, (mem_others.mp hil).1, (mem_others.mp hil).2, hq⟩
  · rintro ⟨h1, h2, h3, h4⟩
    subst h1
    exact ⟨r, mem_others.mpr ⟨h2, h3⟩, h4, rfl⟩

/-- C2: `count_bingo_constraints` returns as tier interval the intersection
of `objective_difficulty` with the per-line intervals — `bingo_difficulty`
minus the contribution of every other cell of each applicable line (exact
tier if occupied, `objective_difficulty` if empty) — and as forbidden
tag-sets exactly one tag list per already-occupied cell sharing a line
with the target cell. -/
theorem C2_count_bingo_constraints (ctx : GeneratorContext) (row col : Nat)
    (hrow : row < ctx.size) (hcol : col < ctx.size) :
    (count_bingo_constraints ctx row col).tier_interval =
      spec_tier_interval ctx row col ∧
    ∃ cells : List (Nat × Nat), cells.Nodup ∧
      (∀ p : Nat × Nat, p ∈ cells ↔
        (p.1 < ctx.size ∧ p.2 < ctx.size ∧ p ≠ (row, col) ∧
         (cellAt ctx.board ctx.size p.1 p.2).isSome = true ∧
         shares_line ctx.size row col p.1 p.2)) ∧
      (count_bingo_constraints ctx row col).exclude_types =
        cells.map (fun p => types_at ctx.board ctx.size p.1 p.2) := by
  constructor
  · simp only [count_bingo_constraints, spec_tier_interval,
      line_interval_eq_spec]
  · refine ⟨((others ctx.size col).filter
        (fun i => (cellAt ctx.board ctx.size row i).isSome)).map
          (fun i => (row, i)) ++
      ((others ctx.size row).filter
        (fun i => (cellAt ctx.board ctx.size i col).isSome)).map
          (fun i => (i, col)) ++
      (if row = col then
        ((others ctx.size row).filter
          (fun i => (cellAt ctx.board ctx.size i i).isSome)).map
            (fun i => (i, i)) else []) ++
      (if row + col = ctx.size - 1 then
        ((others ctx.size row).filter
          (fun i => (cellAt ctx.board ctx.size i (ctx.size - 1 - i)).isSome)).map
            (fun i => (i, ctx.size - 1 - i)) else []), ?_, ?_, ?_⟩
    · -- pairwise distinct positions
      have hinj : ∀ a b : Nat, a = b → a = b := fun a b h => h
      have hA := nodup_filter_map_pair (others ctx.size col)
        (fun i => (cellAt ctx.board ctx.size row i).isSome)
        (fun i => (row, i)) ((List.nodup_range _).filter _)
        (fun a b h => congrArg Prod.snd h)
      have hB := nodup_filter_map_pair (others ctx.size row)
        (fun i => (cellAt ctx.board ctx.size i col).isSome)
        (fun i => (i, col)) ((List.nodup_range _).filter _)
        (fun a b h => congrArg Prod.fst h)
      have hC : (if row = col then
          ((others ctx.size row).filter
            (fun i => (cellAt ctx.board ctx.size i i).isSome)).map
              (fun i => (i, i)) else []).Nodup := by
        split
        · exact nodup_filter_map_pair _ _ _ ((List.nodup_range _).filter _)
            (fun a b h => congrArg Prod.fst h)
        · exact List.nodup_nil
      have hD : (if row + col = ctx.size - 1 then
          ((others ctx.size row).filter
            (fun i => (cellAt ctx.board ctx.size i (ctx.size - 1 - i)).isSome)).map
              (fun i => (i, ctx.size - 1 - i)) else []).Nodup := by
        split
        · exact nodup_filter_map_pair _ _ _ ((List.nodup_range _).filter _)
            (fun a b h => congrArg Prod.fst h)
        · exact List.nodup_nil
      have djAB : ∀ p : Nat × Nat,
          p ∈ ((others ctx.size col).filter
            (fun i => (cellAt ctx.board ctx.size row i).isSome)).map
              (fun i => (row, i)) →
          p ∈ ((others ctx.size row).filter
            (fun i => (cellAt ctx.board ctx.size i col).isSome)).map
              (fun i => (i, col)) → False := by
        rintro ⟨r, c⟩ h1 h2
        rw [mem_rowP] at h1
        rw [mem_colP] at h2
        exact h2.2.2.1 h1.1
      have djAC : ∀ p : Nat × Nat,
          p ∈ ((others ctx.size col).filter
            (fun i => (cellAt ctx.board ctx.size row i).isSome)).map
              (fun i => (row, i)) →
          p ∈ (if row = col then
            ((others ctx.size row).filter
              (fun i => (cellAt ctx.board ctx.size i i).isSome)).map
                (fun i => (i, i)) else []) → False := by
        rintro ⟨r, c⟩ h1 h2
        rw [mem_ite_nil] at h2
        obtain ⟨hcond, h2⟩ := h2
        rw [mem_rowP] at h1
        rw [mem_diagP] at h2
        exact h2.2.2.1 h1.1
      have djAD : ∀ p : Nat × Nat,
          p ∈ ((others ctx.size col).filter
            (fun i => (cellAt ctx.board ctx.size row i).isSome)).map
              (fun i => (row, i)) →
          p ∈ (if row + col = ctx.size - 1 then
            ((others ctx.size row).filter
              (fun i => (cellAt ctx.board ctx.size i (ctx.size - 1 - i)).isSome)).map
                (fun i => (i, ctx.size - 1 - i)) else []) → False := by
        rintro ⟨r, c⟩ h1 h2
        rw [mem_ite_nil] at h2
        rw [mem_rowP] at h1
        obtain ⟨hcond, h2⟩ := h2
        rw [mem_antiP] at h2
        obtain ⟨e1, e2, e3, _⟩ := h2
        obtain ⟨f1, f2, f3, _⟩ := h1
        omega
      have djBC : ∀ p : Nat × Nat,
          p ∈ ((others ctx.size row).filter
            (fun i => (cellAt ctx.board ctx.size i col).isSome)).map
              (fun i => (i, col)) →
          p ∈ (if row = col then
            ((others ctx.size row).filter
              (fun i => (cellAt ctx.board ctx.size i i).isSome)).map
                (fun i => (i, i)) else []) → False := by
        rintro ⟨r, c⟩ h1 h2
        rw [mem_ite_nil] at h2
        obtain ⟨hcond, h2⟩ := h2
        rw [mem_colP] at h1
        rw [mem_diagP] at h2
        obtain ⟨e1, e2, e3, _⟩ := h2
        obtain ⟨f1, f2, f3, _⟩ := h1
        omega
      have djBD : ∀ p : Nat × Nat,
          p ∈ ((others ctx.size row).filter
            (fun i => (cellAt ctx.board ctx.size i col).isSome)).map
              (fun i => (i, col)) →
          p ∈ (if row + col = ctx.size - 1 then
            ((others ctx.size row).filter
              (fun i => (cellAt ctx.board ctx.size i (ctx.size - 1 - i)).isSome)).map
                (fun i => (i, ctx.size - 1 - i)) else []) → False := by
        rintro ⟨r, c⟩ h1 h2
        rw [mem_ite_nil] at h2
        obtain ⟨hcond, h2⟩ := h2
        rw [mem_colP] at h1
        rw [mem_antiP] at h2
        obtain ⟨e1, e2, e3, _⟩ := h2
        obtain ⟨f1, f2, f3, _⟩ := h1
        omega
      have djCD : ∀ p : Nat × Nat,
          p ∈ (if row = col then
            ((others ctx.size row).filter
              (fun i => (cellAt ctx.board ctx.size i i).isSome)).map
                (fun i => (i, i)) else []) →
          p ∈ (if row + col = ctx.size - 1 then
            ((others ctx.size row).filter
              (fun i => (cellAt ctx.board ctx.size i (ctx.size - 1 - i)).isSome)).map
                (fun i => (i, ctx.size - 1 - i)) else []) → False := by
        rintro ⟨r, c⟩ h1 h2
        rw [mem_ite_nil] at h1
        rw [mem_ite_nil] at h2
        obtain ⟨hc1, h1⟩ := h1
        obtain ⟨hc2, h2⟩ := h2
        rw [mem_diagP] at h1
        rw [mem_antiP] at h2
        obtain ⟨e1, e2, e3, _⟩ := h1
        obtain ⟨f1, f2, f3, _⟩ := h2
        omega
      refine ((hA.append hB (fun p hp1 hp2 => djAB p hp1 hp2)).append hC
          ?_).append hD ?_
      · rw [List.disjoint_append_left]
        exact ⟨fun p hp1 hp2 => djAC p hp1 hp2,
          fun p hp1 hp2 => djBC p hp1 hp2⟩
      · rw [List.disjoint_append_left, List.disjoint_append_left]
        exact ⟨⟨fun p hp1 hp2 => djAD p hp1 hp2,
          fun p hp1 hp2 => djBD p hp1 hp2⟩,
          fun p hp1 hp2 => djCD p hp1 hp2⟩
    · -- membership characterization
      rintro ⟨r, c⟩
      simp only [List.mem_append, mem_ite_nil, mem_rowP, mem_colP, mem_diagP,
        mem_antiP]
      constructor
      · rintro (((⟨h1, h2, h3, h4⟩ | ⟨h1, h2, h3, h4⟩) |
          ⟨hcond, h1, h2, h3, h4⟩) | ⟨hcond, h1, h2, h3, h4⟩)
        · subst h1
          refine ⟨hrow, h2, ?_, h4, Or.inl rfl⟩
          intro heq
          exact h3 (congrArg Prod.snd heq)
        · subst h1
          refine ⟨h2, hcol, ?_, h4, Or.inr (Or.inl rfl)⟩
          intro heq
          exact h3 (congrArg Prod.fst heq)
        · subst h1
          refine ⟨h2, h2, ?_, h4, Or.inr (Or.inr (Or.inl ⟨hcond, rfl⟩))⟩
          intro heq
          exact h3 (congrArg Prod.fst heq)
        · subst h1
          refine ⟨h2, by omega, ?_, h4, Or.inr (Or.inr (Or.inr ⟨hcond, by omega⟩))⟩
          intro heq
          exact h3 (congrArg Prod.fst heq)
      · rintro ⟨hr, hc, hne, hocc, hsh⟩
        have hsh' : r = row ∨ c = col ∨ (row = col ∧ r = c) ∨
            (row + col = ctx.size - 1 ∧ r + c = ctx.size - 1) := hsh
        by_cases h1 : r = row
        · subst h1
          refine Or.inl (Or.inl (Or.inl ⟨rfl, hc, ?_, hocc⟩))
          intro hcc
          exact hne (by rw [hcc])
        · by_cases h2 : c = col
          · subst h2
            exact Or.inl (Or.inl (Or.inr ⟨rfl, hr, h1, hocc⟩))
          · rcases hsh' with h | h | ⟨hd, he⟩ | ⟨ha, he⟩
            · exact absurd h h1
            · exact absurd h h2
            · exact Or.inl (Or.inr ⟨hd, he, hr, h1, hocc⟩)
            · exact Or.inr ⟨ha, by omega, hr, h1, hocc⟩
    · -- the collected tag lists, one per sharing occupied cell
      simp only [count_bingo_constraints, row_others, col_others, diag_others,
        anti_others, occupied_types_eq, List.map_append]
      by_cases h1 : row = col
      · subst h1
        by_cases h2 : row + row = ctx.size - 1 <;>
          simp [h2, List.map_map, Function.comp_def, types_at]
      · by_cases h2 : row + col = ctx.size - 1 <;>
          simp [h1, h2, List.map_map, Function.comp_def, types_at]

/-! ### Engine lemmas -/

/-- The fields of the context the engine never writes. -/
theorem loop_consts (helper : GeneratorContext → Bool × GeneratorContext)
    (Hc : ∀ c, consts (helper c).2 = consts c) (size row col : Nat)
    (pool : List Objective) :
    ∀ ctx, consts (generate_board_loop helper size row col pool ctx).2 =
      consts ctx := by
  induction pool with
  | nil => intro ctx; rfl
  | cons obj rest ih =>
    intro ctx
    simp only [generate_board_loop]
    split
    · exact Hc _
    · split
      · split
        · exact Hc _
        · exact (ih _).trans (Hc _)
      · exact (ih _).trans (Hc _)

theorem narrow_name_not_mem {te : TypeExclusivity} {itv : Interval}
    {exT : List (List String)} {exN : Finset String} {obj : Objective}
    (h : obj ∈ narrow_bingo_pool te itv exT exN) : obj.name ∉ exN := by
  cases te <;> simp [narrow_bingo_pool, List.mem_filter] at h <;> tauto

theorem narrow_tier_contains {te : TypeExclusivity} {itv : Interval}
    {exT : List (List String)} {exN : Finset String} {obj : Objective}
    (h : obj ∈ narrow_bingo_pool te itv exT exN) :
    itv.contains obj.tier = true := by
  cases te <;> simp [narrow_bingo_pool, List.mem_filter] at h <;> tauto

theorem helper_consts : ∀ (fuel : Nat) (ctx : GeneratorContext),
    consts (generate_board_helper fuel ctx).2 = consts ctx := by
  intro fuel
  induction fuel with
  | zero => intro ctx; rfl
  | succ f ih =>
    intro ctx
    simp only [generate_board_helper]
    split <;> split
    · rfl
    · split
      · rfl
      · split
        · exact loop_consts _ ih _ _ _ _ _
        · exact loop_consts _ ih _ _ _ _ _
    · rfl
    · split
      · rfl
      · split
        · exact loop_consts _ ih _ _ _ _ _
        · exact loop_consts _ ih _ _ _ _ _

theorem loop_frame (helper : GeneratorContext → Bool × GeneratorContext)
    (size row col : Nat)
    (Hf : ∀ c : GeneratorContext,
      (∀ k, c.depth ≤ k → c.board.getD k none = none) →
      (helper c).1 = false →
      (helper c).2.board = c.board ∧ (helper c).2.depth = c.depth ∧
        (helper c).2.objective_names = c.objective_names) :
    ∀ (pool : List Objective) (ctx : GeneratorContext),
      (∀ obj ∈ pool, obj.name ∉ ctx.objective_names) →
      (∀ k, ctx.depth ≤ k → ctx.board.getD k none = none) →
      (row * size + col + 1 = ctx.depth) →
      (generate_board_loop helper size row col pool ctx).1 = false →
      (generate_board_loop helper size row col pool ctx).2.depth = ctx.depth ∧
      (generate_board_loop helper size row col pool ctx).2.objective_names =
        ctx.objective_names ∧
      (generate_board_loop helper size row col pool ctx).2.board.set
          (row * size + col) none =
        ctx.board.set (row * size + col) none := by
  intro pool
  induction pool with
  | nil =>
    intro ctx _ _ _ _
    exact ⟨rfl, rfl, rfl⟩
  | cons obj rest ih =>
    intro ctx hnames hsuf hidx
    simp only [generate_board_loop]
    rcases hhp : helper { ctx with
        board := ctx.board.set (row * size + col) (some obj),
        objective_names := insert obj.name ctx.objective_names } with ⟨res, c2⟩
    have hfall := Hf { ctx with
        board := ctx.board.set (row * size + col) (some obj),
        objective_names := insert obj.name ctx.objective_names }
      (by
        intro k hk
        dsimp only at hk ⊢
        rw [getD_set_ne]
        · exact hsuf k hk
        · omega)
    dsimp only
    cases res with
    | true =>
      rw [if_pos rfl]
      intro hres
      exact absurd hres (by simp)
    | false =>
      rw [if_neg Bool.false_ne_true]
      obtain ⟨hfb, hfd, hfn⟩ := hfall (by rw [hhp])
      rw [hhp] at hfb hfd hfn
      dsimp only at hfb hfd hfn
      have hbtn : c2.objective_names.erase obj.name = ctx.objective_names := by
        rw [hfn]
        exact Finset.erase_insert (hnames obj (List.mem_cons_self obj rest))
      have hnames2 : ∀ o ∈ rest, o.name ∉ c2.objective_names.erase obj.name := by
        intro o ho
        rw [hbtn]
        exact hnames o (List.mem_cons_of_mem obj ho)
      have hsuf2 : ∀ k, c2.depth ≤ k → c2.board.getD k none = none := by
        intro k hk
        rw [hfd] at hk
        rw [hfb, getD_set_ne]
        · exact hsuf k hk
        · omega
      have hidx2 : row * size + col + 1 = c2.depth := by
        rw [hfd]
        exact hidx
      split
      · split
        · intro _
          refine ⟨hfd, hbtn, ?_⟩
          dsimp only
          rw [hfb, List.set_set]
        · intro hres
          have hrec := ih { c2 with
              backtracks := c2.backtracks + 1,
              objective_names := c2.objective_names.erase obj.name }
            hnames2 hsuf2 hidx2 hres
          dsimp only at hrec
          obtain ⟨hd, hn, hbd⟩ := hrec
          refine ⟨hd.trans hfd, hn.trans hbtn, ?_⟩
          rw [hbd, hfb, List.set_set]
      · intro hres
        have hrec := ih { c2 with
            backtracks := 0,
            objective_names := c2.objective_names.erase obj.name }
          hnames2 hsuf2 hidx2 hres
        dsimp only at hrec
        obtain ⟨hd, hn, hbd⟩ := hrec
        refine ⟨hd.trans hfd, hn.trans hbtn, ?_⟩
        rw [hbd, hfb, List.set_set]

/-- C6 backbone: a failing call of the helper leaves the board, the fill
depth and the used-name set exactly as they were at entry (given that the
cells from `depth` on are empty at entry, as they are throughout a run). -/
theorem helper_frame : ∀ (fuel : Nat) (ctx : GeneratorContext),
    (∀ k, ctx.depth ≤ k → ctx.board.getD k none = none) →
    (generate_board_helper fuel ctx).1 = false →
    (generate_board_helper fuel ctx).2.board = ctx.board ∧
    (generate_board_helper fuel ctx).2.depth = ctx.depth ∧
    (generate_board_helper fuel ctx).2.objective_names =
      ctx.objective_names := by
  intro fuel
  induction fuel with
  | zero =>
    intro ctx _ _
    exact ⟨rfl, rfl, rfl⟩
  | succ f ih =>
    intro ctx hsuf
    have hmod : ctx.size * (ctx.depth / ctx.size) + ctx.depth % ctx.size =
        ctx.depth := Nat.div_add_mod ctx.depth ctx.size
    simp only [generate_board_helper]
    split <;> (try dsimp only) <;> split
    case isTrue.isTrue | isFalse.isTrue =>
      intro h
      exact absurd h (by simp)
    case isTrue.isFalse | isFalse.isFalse =>
      split
      · intro _
        exact ⟨rfl, rfl, rfl⟩
      · split
        case isTrue hsp =>
          intro h
          rw [h] at hsp
          exact absurd hsp (by simp)
        case isFalse hsp =>
          intro _
          rw [Bool.not_eq_true] at hsp
          have hrec := loop_frame (generate_board_helper f) ctx.size
            (ctx.depth / ctx.size) (ctx.depth % ctx.size) ih _ _
            (by
              intro o ho
              exact narrow_name_not_mem (mem_shuffle_array ho))
            (by
              intro k hk
              dsimp only at hk ⊢
              exact hsuf k (by omega))
            (by
              dsimp only
              rw [Nat.mul_comm]
              omega)
            hsp
          dsimp only at hrec
          obtain ⟨hd, hn, hbd⟩ := hrec
          have hidxeq : (ctx.depth / ctx.size) * ctx.size +
              ctx.depth % ctx.size = ctx.depth := by
            rw [Nat.mul_comm]
            omega
          refine ⟨?_, ?_, hn⟩
          · dsimp only
            rw [hbd, hidxeq]
            exact set_eq_self_of_getD _ _ _ (hsuf _ le_rfl)
          · dsimp only
            rw [hd]
            omega

theorem helper_size : ∀ (fuel : Nat) (c : GeneratorContext),
    (generate_board_helper fuel c).2.size = c.size :=
  fun fuel c => congrArg Prod.fst (helper_consts fuel c)

theorem loop_depth (helper : GeneratorContext → Bool × GeneratorContext)
    (Hd : ∀ c, (helper c).1 = false → (helper c).2.depth = c.depth)
    (size row col : Nat) :
    ∀ (pool : List Objective) (ctx : GeneratorContext),
      (generate_board_loop helper size row col pool ctx).1 = false →
      (generate_board_loop helper size row col pool ctx).2.depth =
        ctx.depth := by
  intro pool
  induction pool with
  | nil => intro ctx _; rfl
  | cons obj rest ih =>
    intro ctx
    simp only [generate_board_loop]
    rcases hhp : helper { ctx with
        board := ctx.board.set (row * size + col) (some obj),
        objective_names := insert obj.name ctx.objective_names } with ⟨res, c2⟩
    dsimp only
    cases res with
    | true =>
      rw [if_pos rfl]
      intro h
      exact absurd h (by simp)
    | false =>
      rw [if_neg Bool.false_ne_true]
      have hd2 : c2.depth = ctx.depth := by
        have h := Hd { ctx with
          board := ctx.board.set (row * size + col) (some obj),
          objective_names := insert obj.name ctx.objective_names } (by rw [hhp])
        rw [hhp] at h
        exact h
      split
      · split
        · intro _
          exact hd2
        · intro h
          exact (ih _ h).trans hd2
      · intro h
        exact (ih _ h).trans hd2

theorem helper_depth : ∀ (fuel : Nat) (ctx : GeneratorContext),
    (generate_board_helper fuel ctx).1 = false →
    (generate_board_helper fuel ctx).2.depth = ctx.depth := by
  intro fuel
  induction fuel with
  | zero => intro ctx _; rfl
  | succ f ih =>
    intro ctx
    simp only [generate_board_helper]
    split <;> (try dsimp only) <;> split
    case isTrue.isTrue | isFalse.isTrue =>
      intro h
      exact absurd h (by simp)
    case isTrue.isFalse | isFalse.isFalse =>
      split
      · intro _
        rfl
      · split
        case isTrue hsp =>
          intro h
          rw [h] at hsp
          exact absurd hsp (by simp)
        case isFalse hsp =>
          intro _
          rw [Bool.not_eq_true] at hsp
          have hld := loop_depth (generate_board_helper f) ih ctx.size
            (ctx.depth / ctx.size) (ctx.depth % ctx.size) _ _ hsp
          dsimp only at hld
          dsimp only
          rw [hld]
          omega

theorem loop_fuel_congr (h1 h2 : GeneratorContext → Bool × GeneratorContext)
    (Hd : ∀ c, (h1 c).1 = false → (h1 c).2.depth = c.depth)
    (Hs : ∀ c, (h1 c).2.size = c.size)
    (size row col : Nat) :
    ∀ (pool : List Objective) (ctx : GeneratorContext),
      (∀ c : GeneratorContext, c.depth = ctx.depth → c.size = ctx.size →
        h1 c = h2 c) →
      generate_board_loop h1 size row col pool ctx =
        generate_board_loop h2 size row col pool ctx := by
  intro pool
  induction pool with
  | nil => intro ctx _; rfl
  | cons obj rest ih =>
    intro ctx Heq
    simp only [generate_board_loop]
    have heqp : h1 { ctx with
        board := ctx.board.set (row * size + col) (some obj),
        objective_names := insert obj.name ctx.objective_names } =
      h2 { ctx with
        board := ctx.board.set (row * size + col) (some obj),
        objective_names := insert obj.name ctx.objective_names } :=
      Heq _ rfl rfl
    rw [← heqp]
    rcases hhp : h1 { ctx with
        board := ctx.board.set (row * size + col) (some obj),
        objective_names := insert obj.name ctx.objective_names } with ⟨res, c2⟩
    dsimp only
    cases res with
    | true => rfl
    | false =>
      have hd2 : c2.depth = ctx.depth := by
        have h := Hd { ctx with
          board := ctx.board.set (row * size + col) (some obj),
          objective_names := insert obj.name ctx.objective_names } (by rw [hhp])
        rw [hhp] at h
        exact h
      have hs2 : c2.size = ctx.size := by
        have h := Hs { ctx with
          board := ctx.board.set (row * size + col) (some obj),
          objective_names := insert obj.name ctx.objective_names }
        rw [hhp] at h
        exact h
      rw [if_neg Bool.false_ne_true]
      split
      · split
        · rfl
        · exact ih _ (fun c hcd hcs => Heq c (hcd.trans hd2) (hcs.trans hs2))
      · exact ih _ (fun c hcd hcs => Heq c (hcd.trans hd2) (hcs.trans hs2))

theorem helper_fuel_irrelevant : ∀ (f1 f2 : Nat) (ctx : GeneratorContext),
    ctx.size * ctx.size - ctx.depth < f1 →
    ctx.size * ctx.size - ctx.depth < f2 →
    generate_board_helper f1 ctx = generate_board_helper f2 ctx := by
  intro f1
  induction f1 with
  | zero =>
    intro f2 ctx h1 h2
    omega
  | succ g1 ih =>
    intro f2 ctx h1 h2
    cases f2 with
    | zero => omega
    | succ g2 =>
      simp only [generate_board_helper]
      split <;> (try dsimp only) <;> split
      case isTrue.isTrue | isFalse.isTrue => rfl
      case isTrue.isFalse | isFalse.isFalse =>
        split
        · rfl
        · rw [loop_fuel_congr (generate_board_helper g1)
            (generate_board_helper g2) (helper_depth g1) (helper_size g1)
            ctx.size (ctx.depth / ctx.size) (ctx.depth % ctx.size)]
          intro c hcd hcs
          dsimp only at hcd hcs
          refine ih g2 c ?_ ?_ <;> rw [hcd, hcs] <;> omega

/-! ### Validity machinery (C1) -/

theorem count_tier_elim (ctx : GeneratorContext) (row col : Nat) (t : Int)
    (h : (count_bingo_constraints ctx row col).tier_interval.contains t =
      true) :
    ctx.objective_difficulty.contains t = true ∧
    (line_interval ctx.bingo_difficulty ctx.objective_difficulty
      (row_others ctx.board ctx.size row col)).contains t = true ∧
    (line_interval ctx.bingo_difficulty ctx.objective_difficulty
      (col_others ctx.board ctx.size row col)).contains t = true ∧
    (row = col →
      (line_interval ctx.bingo_difficulty ctx.objective_difficulty
        (diag_others ctx.board ctx.size row)).contains t = true) ∧
    (row + col = ctx.size - 1 →
      (line_interval ctx.bingo_difficulty ctx.objective_difficulty
        (anti_others ctx.board ctx.size row)).contains t = true) := by
  simp only [count_bingo_constraints] at h
  rw [foldl_intersection_contains] at h
  obtain ⟨hod, hall⟩ := h
  refine ⟨hod, ?_, ?_, ?_, ?_⟩
  · refine hall _ (List.mem_filterMap.mpr ⟨_, ?_, rfl⟩)
    exact List.mem_cons_self _ _
  · refine hall _ (List.mem_filterMap.mpr ⟨_, ?_, rfl⟩)
    exact List.mem_cons_of_mem _ (List.mem_cons_self _ _)
  · intro hd
    refine hall _ (List.mem_filterMap.mpr ⟨_, ?_, rfl⟩)
    rw [if_pos hd]
    exact List.mem_cons_of_mem _ (List.mem_cons_of_mem _
      (List.mem_cons_self _ _))
  · intro ha
    refine hall _ (List.mem_filterMap.mpr ⟨_, ?_, rfl⟩)
    rw [if_pos ha]
    exact List.mem_cons_of_mem _ (List.mem_cons_of_mem _
      (List.mem_cons_of_mem _ (List.mem_cons_self _ _)))

theorem line_sum_update (size p : Nat) (g g' : Nat → Option Objective)
    (o : Objective) (hp : p < size)
    (hg : ∀ i, i < size → i ≠ p → g' i = g i) (hgp : g' p = some o) :
    occupied_sum ((List.range size).map g') =
      occupied_sum ((others size p).map g) + o.tier := by
  rw [occupied_sum_eq, occupied_sum_eq, List.map_map, List.map_map,
    sum_map_range_split size p _ hp]
  congr 1
  · apply congrArg
    apply List.map_congr_left
    intro i hi
    obtain ⟨hilt, hine⟩ := mem_others.mp hi
    simp only [Function.comp_apply]
    rw [hg i hilt hine]
  · simp only [Function.comp_apply]
    rw [hgp]
    rfl

theorem line_full_others (size p : Nat) (g g' : Nat → Option Objective)
    (hg : ∀ i, i < size → i ≠ p → g' i = g i)
    (hfull : line_full ((List.range size).map g')) :
    ∀ c ∈ (others size p).map g, c.isSome = true := by
  intro c hc
  rw [List.mem_map] at hc
  obtain ⟨i, hi, rfl⟩ := hc
  obtain ⟨hilt, hine⟩ := mem_others.mp hi
  rw [← hg i hilt hine]
  exact hfull _ (List.mem_map_of_mem _ (List.mem_range.mpr hilt))

theorem line_contains_sum (bd od : Interval)
    (cells : List (Option Objective)) (t : Int)
    (hfull : ∀ c ∈ cells, c.isSome = true)
    (h : (line_interval bd od cells).contains t = true) :
    bd.contains (occupied_sum cells + t) = true := by
  rw [line_interval_eq_spec] at h
  have he : empty_count cells = 0 := by
    rw [empty_count, List.length_eq_zero, List.filter_eq_nil_iff]
    intro c hc
    cases c with
    | none => exact absurd (hfull _ hc) (by simp)
    | some o => simp
  rw [interval_contains_iff] at h ⊢
  rw [spec_line_interval, he] at h
  dsimp only at h
  omega

theorem row_cells_set_ne (b : Board) (size row col r : Nat)
    (v : Option Objective) (hcol : col < size) (hne : r ≠ row) :
    row_cells (b.set (row * size + col) v) size r = row_cells b size r := by
  apply List.map_congr_left
  intro i hi
  exact cellAt_set_ne b size row col r i v hcol (List.mem_range.mp hi)
    (fun h => hne h.1)

theorem col_cells_set_ne (b : Board) (size row col c : Nat)
    (v : Option Objective) (hcol : col < size) (hc : c < size)
    (hne : c ≠ col) :
    col_cells (b.set (row * size + col) v) size c = col_cells b size c := by
  apply List.map_congr_left
  intro i hi
  exact cellAt_set_ne b size row col i c v hcol hc (fun h => hne h.2)

theorem diag_cells_set_ne (b : Board) (size row col : Nat)
    (v : Option Objective) (hcol : col < size) (hne : row ≠ col) :
    diag_cells (b.set (row * size + col) v) size = diag_cells b size := by
  apply List.map_congr_left
  intro i hi
  exact cellAt_set_ne b size row col i i v hcol (List.mem_range.mp hi)
    (fun h => hne (h.1.symm.trans h.2))

theorem anti_cells_set_ne (b : Board) (size row col : Nat)
    (v : Option Objective) (hcol : col < size)
    (hne : row + col ≠ size - 1) :
    anti_cells (b.set (row * size + col) v) size = anti_cells b size := by
  apply List.map_congr_left
  intro i hi
  refine cellAt_set_ne b size row col i (size - 1 - i) v hcol ?_ ?_
  · have := List.mem_range.mp hi
    omega
  · intro h
    have hi' := List.mem_range.mp hi
    apply hne
    omega

theorem BoardValid_place (ctx : GeneratorContext) (row col : Nat)
    (o : Objective) (hrow : row < ctx.size) (hcol : col < ctx.size)
    (hlen : ctx.board.length = ctx.size * ctx.size)
    (hempty : ctx.board.getD (row * ctx.size + col) none = none)
    (hvalid : BoardValid ctx.board ctx.size ctx.objective_difficulty
      ctx.bingo_difficulty)
    (htier : (count_bingo_constraints ctx row col).tier_interval.contains
      o.tier = true) :
    BoardValid (ctx.board.set (row * ctx.size + col) (some o)) ctx.size
      ctx.objective_difficulty ctx.bingo_difficulty := by
  obtain ⟨hod, hrowi, hcoli, hdiagi, hantii⟩ :=
    count_tier_elim ctx row col o.tier htier
  obtain ⟨hv1, hv2, hv3, hv4, hv5⟩ := hvalid
  have hidxlt : row * ctx.size + col < ctx.board.length := by
    rw [hlen]
    exact index_lt_of_lt _ _ _ hrow hcol
  refine ⟨?_, ?_, ?_, ?_, ?_⟩
  · intro o' ho'
    rcases List.mem_or_eq_of_mem_set ho' with h | h
    · exact hv1 o' h
    · injection h with h
      subst h
      exact hod
  · intro r hr hfull
    by_cases hcase : r = row
    · subst hcase
      have hg : ∀ i, i < ctx.size → i ≠ col →
          cellAt (ctx.board.set (r * ctx.size + col) (some o)) ctx.size r i =
            cellAt ctx.board ctx.size r i := by
        intro i hi hne
        exact cellAt_set_ne ctx.board ctx.size r col r i (some o) hcol hi
          (fun h => hne h.2)
      have hgp : cellAt (ctx.board.set (r * ctx.size + col) (some o))
          ctx.size r col = some o := cellAt_set_self _ _ _ _ _ hidxlt
      have hsum := line_sum_update ctx.size col
        (fun i => cellAt ctx.board ctx.size r i)
        (fun i => cellAt (ctx.board.set (r * ctx.size + col) (some o))
          ctx.size r i) o hcol hg hgp
      have hothersfull := line_full_others ctx.size col
        (fun i => cellAt ctx.board ctx.size r i)
        (fun i => cellAt (ctx.board.set (r * ctx.size + col) (some o))
          ctx.size r i) hg hfull
      have hcontains := line_contains_sum _ _ _ _ hothersfull hrowi
      rw [show occupied_sum (row_cells
          (ctx.board.set (r * ctx.size + col) (some o)) ctx.size r) =
        occupied_sum (row_others ctx.board ctx.size r col) + o.tier from hsum]
      exact hcontains
    · rw [row_cells_set_ne ctx.board ctx.size row col r (some o) hcol hcase]
        at hfull ⊢
      exact hv2 r hr hfull
  · intro c hc hfull
    by_cases hcase : c = col
    · subst hcase
      have hg : ∀ i, i < ctx.size → i ≠ row →
          cellAt (ctx.board.set (row * ctx.size + c) (some o)) ctx.size i c =
            cellAt ctx.board ctx.size i c := by
        intro i hi hne
        exact cellAt_set_ne ctx.board ctx.size row c i c (some o) hcol hc
          (fun h => hne h.1)
      have hgp : cellAt (ctx.board.set (row * ctx.size + c) (some o))
          ctx.size row c = some o := cellAt_set_self _ _ _ _ _ hidxlt
      have hsum := line_sum_update ctx.size row
        (fun i => cellAt ctx.board ctx.size i c)
        (fun i => cellAt (ctx.board.set (row * ctx.size + c) (some o))
          ctx.size i c) o hrow hg hgp
      have hothersfull := line_full_others ctx.size row
        (fun i => cellAt ctx.board ctx.size i c)
        (fun i => cellAt (ctx.board.set (row * ctx.size + c) (some o))
          ctx.size i c) hg hfull
      have hcontains := line_contains_sum _ _ _ _ hothersfull hcoli
      rw [show occupied_sum (col_cells
          (ctx.board.set (row * ctx.size + c) (some o)) ctx.size c) =
        occupied_sum (col_others ctx.board ctx.size row c) + o.tier
        from hsum]
      exact hcontains
    · rw [col_cells_set_ne ctx.board ctx.size row col c (some o) hcol hc
        hcase] at hfull ⊢
      exact hv3 c hc hfull
  · intro hpos hfull
    by_cases hcase : row = col
    · subst hcase
      have hg : ∀ i, i < ctx.size → i ≠ row →
          cellAt (ctx.board.set (row * ctx.size + row) (some o)) ctx.size i i =
            cellAt ctx.board ctx.size i i := by
        intro i hi hne
        exact cellAt_set_ne ctx.board ctx.size row row i i (some o) hcol hi
          (fun h => hne h.1)
      have hgp : cellAt (ctx.board.set (row * ctx.size + row) (some o))
          ctx.size row row = some o := cellAt_set_self _ _ _ _ _ hidxlt
      have hsum := line_sum_update ctx.size row
        (fun i => cellAt ctx.board ctx.size i i)
        (fun i => cellAt (ctx.board.set (row * ctx.size + row) (some o))
          ctx.size i i) o hrow hg hgp
      have hothersfull := line_full_others ctx.size row
        (fun i => cellAt ctx.board ctx.size i i)
        (fun i => cellAt (ctx.board.set (row * ctx.size + row) (some o))
          ctx.size i i) hg hfull
      have hcontains := line_contains_sum _ _ _ _ hothersfull (hdiagi rfl)
      rw [show occupied_sum (diag_cells
          (ctx.board.set (row * ctx.size + row) (some o)) ctx.size) =
        occupied_sum (diag_others ctx.board ctx.size row) + o.tier
        from hsum]
      exact hcontains
    · rw [diag_cells_set_ne ctx.board ctx.size row col (some o) hcol hcase]
        at hfull ⊢
      exact hv4 hpos hfull
  · intro hpos hfull
    by_cases hcase : row + col = ctx.size - 1
    · have hcol' : ctx.size - 1 - row = col := by omega
      have hg : ∀ i, i < ctx.size → i ≠ row →
          cellAt (ctx.board.set (row * ctx.size + col) (some o)) ctx.size i
              (ctx.size - 1 - i) =
            cellAt ctx.board ctx.size i (ctx.size - 1 - i) := by
        intro i hi hne
        refine cellAt_set_ne ctx.board ctx.size row col i (ctx.size - 1 - i)
          (some o) hcol (by omega) (fun h => hne h.1)
      have hgp : cellAt (ctx.board.set (row * ctx.size + col) (some o))
          ctx.size row (ctx.size - 1 - row) = some o := by
        rw [hcol']
        exact cellAt_set_self _ _ _ _ _ hidxlt
      have hsum := line_sum_update ctx.size row
        (fun i => cellAt ctx.board ctx.size i (ctx.size - 1 - i))
        (fun i => cellAt (ctx.board.set (row * ctx.size + col) (some o))
          ctx.size i (ctx.size - 1 - i)) o hrow hg hgp
      have hothersfull := line_full_others ctx.size row
        (fun i => cellAt ctx.board ctx.size i (ctx.size - 1 - i))
        (fun i => cellAt (ctx.board.set (row * ctx.size + col) (some o))
          ctx.size i (ctx.size - 1 - i)) hg hfull
      have hcontains := line_contains_sum _ _ _ _ hothersfull (hantii hcase)
      rw [show occupied_sum (anti_cells
          (ctx.board.set (row * ctx.size + col) (some o)) ctx.size) =
        occupied_sum (anti_others ctx.board ctx.size row) + o.tier
        from hsum]
      exact hcontains
    · rw [anti_cells_set_ne ctx.board ctx.size row col (some o) hcol hcase]
        at hfull ⊢
      exact hv5 hpos hfull

theorem toFinset_nameList_set (b : Board) (k : Nat) (o : Objective)
    (hk : k < b.length) (hempty : b.getD k none = none) :
    (nameList (b.set k (some o))).toFinset =
      insert o.name (nameList b).toFinset := by
  rw [List.toFinset_eq_of_perm _ _ (nameList_set_some_perm b k o hk hempty)]
  simp [List.toFinset_cons]

theorem nodup_nameList_set (b : Board) (k : Nat) (o : Objective)
    (hk : k < b.length) (hempty : b.getD k none = none)
    (hnodup : (nameList b).Nodup) (hnew : o.name ∉ nameList b) :
    (nameList (b.set k (some o))).Nodup := by
  rw [List.Perm.nodup_iff (nameList_set_some_perm b k o hk hempty)]
  exact List.nodup_cons.mpr ⟨hnew, hnodup⟩

/-- Placing an admissible, unused objective at the next row-major cell
preserves the search invariant (the new state has depth one deeper; the
diagnostic fields are arbitrary). -/
theorem SearchInv_place (ctx0 : GeneratorContext) (obj : Objective)
    (row col : Nat) (R B : Nat) (S : List Nat)
    (hInv0 : SearchInv ctx0) (hrowlt : row < ctx0.size)
    (hcollt : col < ctx0.size) (hrc : row * ctx0.size + col = ctx0.depth)
    (htier : (count_bingo_constraints ctx0 row col).tier_interval.contains
      obj.tier = true)
    (hname : obj.name ∉ ctx0.objective_names) :
    SearchInv { ctx0 with
      board := ctx0.board.set (row * ctx0.size + col) (some obj),
      objective_names := insert obj.name ctx0.objective_names,
      depth := ctx0.depth + 1,
      depth_record := R, backtracks := B, rand := S } := by
  obtain ⟨hlen, hsufi, hprei, hnamesi, hnodupi, hvalidi⟩ := hInv0
  have hidxlt : row * ctx0.size + col < ctx0.board.length := by
    rw [hlen]
    exact index_lt_of_lt _ _ _ hrowlt hcollt
  have hcellempty : ctx0.board.getD (row * ctx0.size + col) none = none :=
    hsufi _ (le_of_eq hrc.symm)
  refine ⟨?_, ?_, ?_, ?_, ?_, ?_⟩
  · dsimp only
    rw [List.length_set]
    exact hlen
  · intro k hk
    dsimp only at hk ⊢
    rw [getD_set_ne]
    · exact hsufi k (by omega)
    · omega
  · intro k hk
    dsimp only at hk ⊢
    by_cases hke : k = row * ctx0.size + col
    · subst hke
      rw [getD_set_self _ _ _ _ hidxlt]
      rfl
    · rw [getD_set_ne _ _ _ _ _ (fun h => hke h.symm)]
      exact hprei k (by omega)
  · dsimp only
    rw [toFinset_nameList_set _ _ _ hidxlt hcellempty, hnamesi]
  · dsimp only
    refine nodup_nameList_set _ _ _ hidxlt hcellempty hnodupi ?_
    intro hmem
    exact hname (hnamesi ▸ List.mem_toFinset.mpr hmem)
  · dsimp only
    exact BoardValid_place ctx0 row col obj hrowlt hcollt hlen hcellempty
      hvalidi htier

theorem loop_success (helper : GeneratorContext → Bool × GeneratorContext)
    (size row col : Nat)
    (Hc : ∀ c, consts (helper c).2 = consts c)
    (Hf : ∀ c : GeneratorContext,
      (∀ k, c.depth ≤ k → c.board.getD k none = none) →
      (helper c).1 = false →
      (helper c).2.board = c.board ∧ (helper c).2.depth = c.depth ∧
        (helper c).2.objective_names = c.objective_names)
    (Hs : ∀ c : GeneratorContext, SearchInv c → (helper c).1 = true →
      SearchInv (helper c).2 ∧ c.size * c.size ≤ (helper c).2.depth)
    (ctx0 : GeneratorContext) (hInv0 : SearchInv ctx0)
    (hsize : size = ctx0.size) (hrowlt : row < size) (hcollt : col < size)
    (hrc : row * size + col = ctx0.depth) :
    ∀ (pool : List Objective) (ctx : GeneratorContext),
      (∀ obj ∈ pool,
        (count_bingo_constraints ctx0 row col).tier_interval.contains obj.tier
          = true ∧ obj.name ∉ ctx0.objective_names) →
      ctx.size = ctx0.size →
      ctx.objective_difficulty = ctx0.objective_difficulty →
      ctx.bingo_difficulty = ctx0.bingo_difficulty →
      ctx.type_exclusivity = ctx0.type_exclusivity →
      ctx.objective_names = ctx0.objective_names →
      ctx.depth = ctx0.depth + 1 →
      (ctx.board = ctx0.board ∨
        ∃ o', ctx.board = ctx0.board.set (row * size + col) (some o')) →
      (generate_board_loop helper size row col pool ctx).1 = true →
      SearchInv (generate_board_loop helper size row col pool ctx).2 ∧
      ctx0.size * ctx0.size ≤
        (generate_board_loop helper size row col pool ctx).2.depth := by
  intro pool
  induction pool with
  | nil =>
    intro ctx _ _ _ _ _ _ _ _ h
    exact absurd h (by simp [generate_board_loop])
  | cons obj rest ih =>
    intro ctx hpool hsz hod hbd hte hnm hdp hboard
    have hcell0 : ctx0.board.getD (row * size + col) none = none :=
      hInv0.2.1 _ (le_of_eq hrc.symm)
    have hplaced : ctx.board.set (row * size + col) (some obj) =
        ctx0.board.set (row * size + col) (some obj) := by
      rcases hboard with h | ⟨o', h⟩
      · rw [h]
      · rw [h, List.set_set]
    have hctxeq : { ctx with
        board := ctx.board.set (row * size + col) (some obj),
        objective_names := insert obj.name ctx.objective_names } =
      { ctx0 with
        board := ctx0.board.set (row * ctx0.size + col) (some obj),
        objective_names := insert obj.name ctx0.objective_names,
        depth := ctx0.depth + 1,
        depth_record := ctx.depth_record, backtracks := ctx.backtracks,
        rand := ctx.rand } := by
      rw [GeneratorContext.mk.injEq]
      refine ⟨?_, hsz, hod, hbd, hte, ?_, hdp, rfl, rfl, rfl⟩
      · rw [← hsize]
        exact hplaced
      · rw [hnm]
    have hInvP := SearchInv_place ctx0 obj row col ctx.depth_record
      ctx.backtracks ctx.rand hInv0 (hsize ▸ hrowlt) (hsize ▸ hcollt)
      (hsize ▸ hrc) (hpool obj (List.mem_cons_self obj rest)).1
      (hpool obj (List.mem_cons_self obj rest)).2
    rw [← hctxeq] at hInvP
    simp only [generate_board_loop]
    rcases hhp : helper { ctx with
        board := ctx.board.set (row * size + col) (some obj),
        objective_names := insert obj.name ctx.objective_names }
      with ⟨res, c2⟩
    dsimp only
    cases res with
    | true =>
      rw [if_pos rfl]
      intro _
      have hres := Hs { ctx with
          board := ctx.board.set (row * size + col) (some obj),
          objective_names := insert obj.name ctx.objective_names }
        hInvP (by rw [hhp])
      rw [hhp] at hres
      refine ⟨hres.1, ?_⟩
      have h2 := hres.2
      dsimp only at h2
      rw [hsz] at h2
      exact h2
    | false =>
      rw [if_neg Bool.false_ne_true]
      have hfall := Hf { ctx with
          board := ctx.board.set (row * size + col) (some obj),
          objective_names := insert obj.name ctx.objective_names }
        (by
          intro k hk
          dsimp only at hk ⊢
          rw [hplaced, getD_set_ne]
          · refine hInv0.2.1 k ?_
            omega
          · omega)
        (by rw [hhp])
      rw [hhp] at hfall
      obtain ⟨hfb, hfd, hfn⟩ := hfall
      dsimp only at hfb hfd hfn
      have hcc := Hc { ctx with
          board := ctx.board.set (row * size + col) (some obj),
          objective_names := insert obj.name ctx.objective_names }
      rw [hhp] at hcc
      have hsz2 : c2.size = ctx0.size := (congrArg (fun p => p.1) hcc).trans hsz
      have hod2 : c2.objective_difficulty = ctx0.objective_difficulty :=
        (congrArg (fun p => p.2.1) hcc).trans hod
      have hbd2 : c2.bingo_difficulty = ctx0.bingo_difficulty :=
        (congrArg (fun p => p.2.2.1) hcc).trans hbd
      have hte2 : c2.type_exclusivity = ctx0.type_exclusivity :=
        (congrArg (fun p => p.2.2.2) hcc).trans hte
      have hnm2 : c2.objective_names.erase obj.name = ctx0.objective_names := by
        rw [hfn]
        show (insert obj.name ctx.objective_names).erase obj.name =
          ctx0.objective_names
        rw [hnm]
        exact Finset.erase_insert (hpool obj (List.mem_cons_self obj rest)).2
      have hdp2 : c2.depth = ctx0.depth + 1 := by
        rw [hfd]
        exact hdp
      have hbo2 : c2.board = ctx0.board ∨
          ∃ o', c2.board = ctx0.board.set (row * size + col) (some o') := by
        right
        exact ⟨obj, by rw [hfb]; exact hplaced⟩
      have hpool2 : ∀ o ∈ rest,
          (count_bingo_constraints ctx0 row col).tier_interval.contains o.tier
            = true ∧ o.name ∉ ctx0.objective_names :=
        fun o ho => hpool o (List.mem_cons_of_mem obj ho)
      split
      · split
        · intro h
          exact absurd h (by simp)
        · exact ih { c2 with
            backtracks := c2.backtracks + 1,
            objective_names := c2.objective_names.erase obj.name }
            hpool2 hsz2 hod2 hbd2 hte2 hnm2 hdp2 hbo2
      · exact ih { c2 with
          backtracks := 0,
          objective_names := c2.objective_names.erase obj.name }
          hpool2 hsz2 hod2 hbd2 hte2 hnm2 hdp2 hbo2

theorem helper_success : ∀ (fuel : Nat) (ctx : GeneratorContext),
    SearchInv ctx →
    (generate_board_helper fuel ctx).1 = true →
    SearchInv (generate_board_helper fuel ctx).2 ∧
    ctx.size * ctx.size ≤ (generate_board_helper fuel ctx).2.depth := by
  intro fuel
  induction fuel with
  | zero =>
    intro ctx _ h
    exact absurd h (by simp [generate_board_helper])
  | succ f ih =>
    intro ctx hInv
    have hmod : ctx.size * (ctx.depth / ctx.size) + ctx.depth % ctx.size =
        ctx.depth := Nat.div_add_mod ctx.depth ctx.size
    simp only [generate_board_helper]
    split <;> (try dsimp only) <;> split
    case isTrue.isTrue hterm | isFalse.isTrue hterm =>
      intro _
      exact ⟨hInv, hterm⟩
    case isTrue.isFalse hterm | isFalse.isFalse hterm =>
      have hpos : 0 < ctx.size := by
        rcases Nat.eq_zero_or_pos ctx.size with h | h
        · rw [h] at hterm
          simp at hterm
        · exact h
      have hrowlt : ctx.depth / ctx.size < ctx.size :=
        (Nat.div_lt_iff_lt_mul hpos).mpr (by omega)
      have hcollt : ctx.depth % ctx.size < ctx.size := Nat.mod_lt _ hpos
      have hrc : (ctx.depth / ctx.size) * ctx.size + ctx.depth % ctx.size =
          ctx.depth := by
        rw [Nat.mul_comm]
        omega
      split
      · intro h
        exact absurd h (by simp)
      · split
        case isTrue hsp =>
          intro _
          refine loop_success (generate_board_helper f) ctx.size _ _
            (helper_consts f) (helper_frame f) ih _ hInv rfl hrowlt hcollt
            hrc _ _ ?_ rfl rfl rfl rfl rfl rfl (Or.inl rfl) hsp
          intro o ho
          exact ⟨narrow_tier_contains (mem_shuffle_array ho),
            narrow_name_not_mem (mem_shuffle_array ho)⟩
        case isFalse hsp =>
          intro h
          exact absurd h (by simp)

theorem nameList_replicate (n : Nat) :
    nameList (List.replicate n (none : Option Objective)) = [] := by
  induction n with
  | zero => rfl
  | succ m ih =>
    rw [List.replicate_succ, nameList_none_cons]
    exact ih

theorem SearchInv_initial (size : Nat) (od bd : Interval)
    (te : TypeExclusivity) (rand : List Nat) :
    SearchInv (GeneratorContext.mk (List.replicate (size * size) none)
      size od bd te ∅ 0 0 0 rand) := by
  refine ⟨?_, ?_, ?_, ?_, ?_, ?_, ?_, ?_, ?_, ?_⟩
  · exact List.length_replicate _ _
  · intro k _
    exact getD_replicate_none _ _
  · intro k hk
    exact absurd hk (Nat.not_lt_zero k)
  · rw [nameList_replicate]
    rfl
  · rw [nameList_replicate]
    exact List.nodup_nil
  · intro o ho
    rw [List.mem_replicate] at ho
    exact absurd ho.2 (by simp)
  · intro r hr hfull
    exfalso
    have hr' : r < size := hr
    have hmem : cellAt (List.replicate (size * size)
        (none : Option Objective)) size r 0 ∈
        row_cells (List.replicate (size * size) none) size r :=
      List.mem_map_of_mem _ (List.mem_range.mpr (by omega))
    have := hfull _ hmem
    rw [show cellAt (List.replicate (size * size)
        (none : Option Objective)) size r 0 = none from
      getD_replicate_none _ _] at this
    simp at this
  · intro c hc hfull
    exfalso
    have hc' : c < size := hc
    have hmem : cellAt (List.replicate (size * size)
        (none : Option Objective)) size 0 c ∈
        col_cells (List.replicate (size * size) none) size c :=
      List.mem_map_of_mem _ (List.mem_range.mpr (by omega))
    have := hfull _ hmem
    rw [show cellAt (List.replicate (size * size)
        (none : Option Objective)) size 0 c = none from
      getD_replicate_none _ _] at this
    simp at this
  · intro hpos hfull
    exfalso
    have hmem : cellAt (List.replicate (size * size)
        (none : Option Objective)) size 0 0 ∈
        diag_cells (List.replicate (size * size) none) size :=
      List.mem_map_of_mem _ (List.mem_range.mpr hpos)
    have := hfull _ hmem
    rw [show cellAt (List.replicate (size * size)
        (none : Option Objective)) size 0 0 = none from
      getD_replicate_none _ _] at this
    simp at this
  · intro hpos hfull
    exfalso
    have hmem : cellAt (List.replicate (size * size)
        (none : Option Objective)) size 0 (size - 1 - 0) ∈
        anti_cells (List.replicate (size * size) none) size :=
      List.mem_map_of_mem _ (List.mem_range.mpr hpos)
    have := hfull _ hmem
    rw [show cellAt (List.replicate (size * size)
        (none : Option Objective)) size 0 (size - 1 - 0) = none from
      getD_replicate_none _ _] at this
    simp at this

theorem board_full (b : Board) (n : Nat) (hlen : b.length = n)
    (hocc : ∀ k, k < n → (b.getD k none).isSome = true) :
    ∀ c ∈ b, c.isSome = true := by
  intro c hc
  rw [List.mem_iff_getElem] at hc
  obtain ⟨i, hi, rfl⟩ := hc
  have := hocc i (hlen ▸ hi)
  rw [List.getD_eq_getElem?_getD, List.getElem?_eq_getElem hi] at this
  simpa using this

theorem lines_full (b : Board) (size : Nat)
    (hocc : ∀ k, k < size * size → (b.getD k none).isSome = true) :
    (∀ r, r < size → line_full (row_cells b size r)) ∧
    (∀ c, c < size → line_full (col_cells b size c)) ∧
    (0 < size → line_full (diag_cells b size)) ∧
    (0 < size → line_full (anti_cells b size)) := by
  refine ⟨?_, ?_, ?_, ?_⟩
  · intro r hr x hx
    simp only [row_cells, col_cells, diag_cells, anti_cells,
      List.mem_map] at hx
    obtain ⟨i, hi, rfl⟩ := hx
    exact hocc _ (index_lt_of_lt size r i hr (List.mem_range.mp hi))
  · intro c hc x hx
    simp only [row_cells, col_cells, diag_cells, anti_cells,
      List.mem_map] at hx
    obtain ⟨i, hi, rfl⟩ := hx
    exact hocc _ (index_lt_of_lt size i c (List.mem_range.mp hi) hc)
  · intro hpos x hx
    simp only [row_cells, col_cells, diag_cells, anti_cells,
      List.mem_map] at hx
    obtain ⟨i, hi, rfl⟩ := hx
    exact hocc _ (index_lt_of_lt size i i (List.mem_range.mp hi)
      (List.mem_range.mp hi))
  · intro hpos x hx
    simp only [anti_cells, List.mem_map] at hx
    obtain ⟨i, hi, rfl⟩ := hx
    refine hocc _ (index_lt_of_lt size i (size - 1 - i)
      (List.mem_range.mp hi) ?_)
    have := List.mem_range.mp hi
    omega

/-- Everything the search invariant yields about a successful
`generate_board` run. -/
theorem generate_board_ok (size : Nat) (od : Option Interval) (bd : Interval)
    (te : TypeExclusivity) (rand : List Nat) (b : Board)
    (h : generate_board size od bd te rand = Except.ok b) :
    b.length = size * size ∧
    (∀ k, k < size * size → (b.getD k none).isSome = true) ∧
    (nameList b).Nodup ∧
    BoardValid b size (od.getD Interval.safeIntegerRange) bd := by
  simp only [generate_board] at h
  split at h
  case isTrue hres =>
    rw [Except.ok.injEq] at h
    have hini := SearchInv_initial size (od.getD Interval.safeIntegerRange)
      bd te rand
    have hsucc := helper_success (size * size + 1) _ hini hres
    obtain ⟨⟨hlenF, hsufF, hpreF, hnmF, hndF, hvF⟩, hdep⟩ := hsucc
    have hc := helper_consts (size * size + 1)
      (GeneratorContext.mk (List.replicate (size * size) none) size
        (od.getD Interval.safeIntegerRange) bd te ∅ 0 0 0 rand)
    have hszf : (generate_board_helper (size * size + 1)
        (GeneratorContext.mk (List.replicate (size * size) none) size
          (od.getD Interval.safeIntegerRange) bd te ∅ 0 0 0
          rand)).2.size = size := congrArg (fun p => p.1) hc
    have hodf : (generate_board_helper (size * size + 1)
        (GeneratorContext.mk (List.replicate (size * size) none) size
          (od.getD Interval.safeIntegerRange) bd te ∅ 0 0 0
          rand)).2.objective_difficulty =
        od.getD Interval.safeIntegerRange := congrArg (fun p => p.2.1) hc
    have hbdf : (generate_board_helper (size * size + 1)
        (GeneratorContext.mk (List.replicate (size * size) none) size
          (od.getD Interval.safeIntegerRange) bd te ∅ 0 0 0
          rand)).2.bingo_difficulty = bd :=
      congrArg (fun p => p.2.2.1) hc
    have hdep' : size * size ≤ (generate_board_helper (size * size + 1)
        (GeneratorContext.mk (List.replicate (size * size) none) size
          (od.getD Interval.safeIntegerRange) bd te ∅ 0 0 0
          rand)).2.depth := hdep
    subst h
    rw [hszf] at hlenF
    rw [hszf, hodf, hbdf] at hvF
    refine ⟨hlenF, ?_, hndF, hvF⟩
    intro k hk
    exact hpreF k (by omega)
  case isFalse =>
    exact absurd h (by simp)

/-- C1: every successful result of `generate_board` is a fully placed
`size × size` board on which every row, every column, and (for a nonempty
board) both main diagonals have a tier sum that `bingo_difficulty`
contains, and every placed item's tier lies within the effective per-cell
interval — the given `objective_difficulty`, or the safe-integer interval
when `none` (the source's `null`) was passed. -/
theorem C1_generated_board_valid (size : Nat)
    (objective_difficulty : Option Interval) (bingo_difficulty : Interval)
    (type_exclusivity : TypeExclusivity) (rand : List Nat) (board : Board)
    (h : generate_board size objective_difficulty bingo_difficulty
      type_exclusivity rand = Except.ok board) :
    board.length = size * size ∧
    (∀ c ∈ board, c.isSome = true) ∧
    (∀ o : Objective, some o ∈ board →
      (objective_difficulty.getD Interval.safeIntegerRange).contains
        o.tier = true) ∧
    (∀ r, r < size → bingo_difficulty.contains
      (occupied_sum (row_cells board size r)) = true) ∧
    (∀ c, c < size → bingo_difficulty.contains
      (occupied_sum (col_cells board size c)) = true) ∧
    (0 < size → bingo_difficulty.contains
      (occupied_sum (diag_cells board size)) = true) ∧
    (0 < size → bingo_difficulty.contains
      (occupied_sum (anti_cells board size)) = true) := by
  obtain ⟨hlen, hocc, _, hvalid⟩ := generate_board_ok size
    objective_difficulty bingo_difficulty type_exclusivity rand board h
  obtain ⟨hv1, hv2, hv3, hv4, hv5⟩ := hvalid
  obtain ⟨hlf1, hlf2, hlf3, hlf4⟩ := lines_full board size hocc
  exact ⟨hlen, board_full board _ hlen hocc, hv1,
    fun r hr => hv2 r hr (hlf1 r hr),
    fun c hc => hv3 c hc (hlf2 c hc),
    fun hp => hv4 hp (hlf3 hp),
    fun hp => hv5 hp (hlf4 hp)⟩

/-- C4: on a successful board no item name appears twice — the list of
names of the `size * size` placed objectives is pairwise distinct (and the
board is indeed fully placed). -/
theorem C4_board_names_unique (size : Nat)
    (objective_difficulty : Option Interval) (bingo_difficulty : Interval)
    (type_exclusivity : TypeExclusivity) (rand : List Nat) (board : Board)
    (h : generate_board size objective_difficulty bingo_difficulty
      type_exclusivity rand = Except.ok board) :
    (nameList board).Nodup ∧ board.length = size * size ∧
    ∀ c ∈ board, c.isSome = true := by
  obtain ⟨hlen, hocc, hnd, _⟩ := generate_board_ok size objective_difficulty
    bingo_difficulty type_exclusivity rand board h
  exact ⟨hnd, hlen, board_full board _ hlen hocc⟩

/-- C5: `objective_names` equals exactly the set of names of the occupied
cells. First conjunct: a placement (writing an empty cell and inserting
the name) maintains the equality; second: an un-placement (clearing the
cell and deleting the name) maintains it; third: a full
`generate_board_helper` call maintains it, so it holds at every recursive
invocation during a run started from a state satisfying the invariant. -/
theorem C5_objective_names_invariant :
    (∀ (b : Board) (k : Nat) (obj : Objective) (names : Finset String),
      k < b.length → b.getD k none = none →
      names = (nameList b).toFinset →
      insert obj.name names = (nameList (b.set k (some obj))).toFinset) ∧
    (∀ (b : Board) (k : Nat) (obj : Objective) (names : Finset String),
      k < b.length → b.getD k none = some obj →
      (nameList b).Nodup →
      names = (nameList b).toFinset →
      names.erase obj.name = (nameList (b.set k none)).toFinset) ∧
    (∀ (fuel : Nat) (ctx : GeneratorContext), SearchInv ctx →
      (generate_board_helper fuel ctx).2.objective_names =
        (nameList (generate_board_helper fuel ctx).2.board).toFinset) := by
  refine ⟨?_, ?_, ?_⟩
  · intro b k obj names hk he hn
    rw [hn, toFinset_nameList_set b k obj hk he]
  · intro b k obj names hk ho hnd hn
    have hperm := nameList_unset_perm b k obj hk ho
    rw [hn, List.toFinset_eq_of_perm _ _ hperm, List.toFinset_cons]
    refine Finset.erase_insert ?_
    rw [List.mem_toFinset]
    exact (List.nodup_cons.mp ((List.Perm.nodup_iff hperm).mp hnd)).1
  · intro fuel ctx hInv
    cases hb : (generate_board_helper fuel ctx).1 with
    | false =>
      obtain ⟨h1, h2, h3⟩ := helper_frame fuel ctx hInv.2.1 hb
      rw [h3, h1]
      exact hInv.2.2.2.1
    | true =>
      exact ((helper_success fuel ctx hInv hb).1).2.2.2.1

/-- C6: a `generate_board_helper` call that reports failure leaves the
board, the depth and the used-name set exactly as they were at entry
(given the row-major discipline that the cells from index `depth` on are
empty at entry); the sizes and difficulty settings are never changed
either, so only the diagnostic fields can differ. In particular an empty
candidate pool reports failure without further mutation. -/
theorem C6_failure_restores_state (fuel : Nat) (ctx : GeneratorContext)
    (hempty : ∀ k, ctx.depth ≤ k → ctx.board.getD k none = none)
    (hfail : (generate_board_helper fuel ctx).1 = false) :
    (generate_board_helper fuel ctx).2.board = ctx.board ∧
    (generate_board_helper fuel ctx).2.depth = ctx.depth ∧
    (generate_board_helper fuel ctx).2.objective_names =
      ctx.objective_names ∧
    (generate_board_helper fuel ctx).2.size = ctx.size ∧
    (generate_board_helper fuel ctx).2.objective_difficulty =
      ctx.objective_difficulty ∧
    (generate_board_helper fuel ctx).2.bingo_difficulty =
      ctx.bingo_difficulty ∧
    (generate_board_helper fuel ctx).2.type_exclusivity =
      ctx.type_exclusivity := by
  obtain ⟨h1, h2, h3⟩ := helper_frame fuel ctx hempty hfail
  have hc := helper_consts fuel ctx
  exact ⟨h1, h2, h3, congrArg (fun p => p.1) hc,
    congrArg (fun p => p.2.1) hc, congrArg (fun p => p.2.2.1) hc,
    congrArg (fun p => p.2.2.2) hc⟩

/-- C9: the backtracking search terminates — the fueled helper's result
does not depend on the fuel once it exceeds the number of still-open
cells, and `generate_board` always returns an explicit value: a board, or
the `Error` value carrying the not-found message (search exhaustion is
never an exception or divergence). -/
theorem C9_search_terminates (f1 f2 : Nat) (ctx : GeneratorContext)
    (h1 : ctx.size * ctx.size - ctx.depth < f1)
    (h2 : ctx.size * ctx.size - ctx.depth < f2) :
    generate_board_helper f1 ctx = generate_board_helper f2 ctx ∧
    ∀ (size : Nat) (od : Option Interval) (bd : Interval)
      (te : TypeExclusivity) (rand : List Nat),
      (∃ b, generate_board size od bd te rand = Except.ok b) ∨
      generate_board size od bd te rand =
        Except.error board_not_found_message := by
  refine ⟨helper_fuel_irrelevant f1 f2 ctx h1 h2, ?_⟩
  intro size od bd te rand
  simp only [generate_board]
  split
  · exact Or.inl ⟨_, rfl⟩
  · exact Or.inr rfl

/-- C7: the bounded-retry escape. Suppose the recursive call for the
candidate just placed reports failure, leaving state `c2`. First
conjunct: when the new depth is above 5 and the incremented backtrack
counter has reached `BACKTRACK_LIMIT`, the loop ignores every remaining
candidate and reports failure at once. Second conjunct: when the depth is
at most 5 (the first five cells), the loop always continues with the next
candidates and `backtracks` reset to 0, whatever its value — so the
threshold can never abort the loop there. -/
theorem C7_backtrack_escape
    (helper : GeneratorContext → Bool × GeneratorContext)
    (size row col : Nat) (objective : Objective) (rest : List Objective)
    (ctx c2 : GeneratorContext)
    (hcall : helper { ctx with
        board := ctx.board.set (row * size + col) (some objective),
        objective_names := insert objective.name ctx.objective_names } =
      (false, c2)) :
    (5 < c2.depth → BACKTRACK_LIMIT ≤ c2.backtracks + 1 →
      generate_board_loop helper size row col (objective :: rest) ctx =
        (false, { c2 with
          backtracks := c2.backtracks + 1,
          objective_names := c2.objective_names.erase objective.name })) ∧
    (c2.depth ≤ 5 →
      generate_board_loop helper size row col (objective :: rest) ctx =
        generate_board_loop helper size row col rest
          { c2 with
            backtracks := 0,
            objective_names := c2.objective_names.erase objective.name }) := by
  constructor
  · intro hdep hbt
    simp only [generate_board_loop]
    rw [hcall]
    dsimp only
    rw [if_neg Bool.false_ne_true, if_pos hdep, if_pos hbt]
  · intro hdep
    simp only [generate_board_loop]
    rw [hcall]
    dsimp only
    rw [if_neg Bool.false_ne_true, if_neg (by omega : ¬ 5 < c2.depth)]

/-! ### Witnesses: the theorems with hypotheses at concrete inputs -/

theorem C1_witness :
    (Interval.mk 2 6).contains
      (occupied_sum (row_cells demo_board 2 0)) = true :=
  (C1_generated_board_valid 2 (some (Interval.mk 1 3)) (Interval.mk 2 6)
    TypeExclusivity.none [] demo_board rfl).2.2.2.1 0 (by omega)

theorem C2_witness :
    (count_bingo_constraints demo_ctx2 0 1).tier_interval =
      spec_tier_interval demo_ctx2 0 1 :=
  (C2_count_bingo_constraints demo_ctx2 0 1 (by decide) (by decide)).1

theorem C4_witness : (nameList demo_board).Nodup :=
  (C4_board_names_unique 2 (some (Interval.mk 1 3)) (Interval.mk 2 6)
    TypeExclusivity.none [] demo_board rfl).1

theorem C6_witness :
    (generate_board_helper 2 demo_ctx6).2.board = demo_ctx6.board ∧
    (generate_board_helper 2 demo_ctx6).2.depth = demo_ctx6.depth ∧
    (generate_board_helper 2 demo_ctx6).2.objective_names =
      demo_ctx6.objective_names ∧
    (generate_board_helper 2 demo_ctx6).2.size = demo_ctx6.size ∧
    (generate_board_helper 2 demo_ctx6).2.objective_difficulty =
      demo_ctx6.objective_difficulty ∧
    (generate_board_helper 2 demo_ctx6).2.bingo_difficulty =
      demo_ctx6.bingo_difficulty ∧
    (generate_board_helper 2 demo_ctx6).2.type_exclusivity =
      demo_ctx6.type_exclusivity :=
  C6_failure_restores_state 2 demo_ctx6
    (fun k _ => getD_replicate_none 1 k) (by decide)

theorem C7_witness :
    generate_board_loop (fun c => (false, c)) 3 2 1 [demo_objective]
        demo_ctx7 =
      (false, { demo_placed7 with
        backtracks := demo_placed7.backtracks + 1,
        objective_names :=
          demo_placed7.objective_names.erase demo_objective.name }) :=
  (C7_backtrack_escape (fun c => (false, c)) 3 2 1 demo_objective []
    demo_ctx7 demo_placed7 rfl).1 (by decide) (by decide)

theorem C9_witness :
    generate_board_helper 10 demo_ctx9 = generate_board_helper 11 demo_ctx9 ∧
    ∀ (size : Nat) (od : Option Interval) (bd : Interval)
      (te : TypeExclusivity) (rand : List Nat),
      (∃ b, generate_board size od bd te rand = Except.ok b) ∨
      generate_board size od bd te rand =
        Except.error board_not_found_message :=
  C9_search_terminates 10 11 demo_ctx9 (by decide) (by decide)

end Bingo
